import Mathlib

/-!
Verification development for the `dbcparser` repository
(`src/dbcparser/parser.py`).

The Python source is embedded shallowly:

* the character stream handed to `StreamParser` becomes a `Strm`
  (text plus cursor position); `read`, `tell` and `seek` become pure
  cursor arithmetic;
* the generator `StreamParser.line_iter` becomes `line_iter_aux`, a
  fuel-indexed function returning the whole yielded sequence together
  with a flag recording whether `DBCSyntaxError` was raised at the end;
* regular expressions become hand-written deterministic scanners over
  `List Char`; each one carries a comment pointing at the pattern it
  embeds and justifying the determinisation of greedy or lazy
  quantifiers where that matters;
* Python `int` values become `Int`/`Nat`; Python `float` values are
  modelled as exact rationals (`Rat`) - no property proved here depends
  on binary rounding;
* raising becomes an `Except`/`Bool` error result.
-/

namespace Dbc

/-- ASCII whitespace recognised by the regex class `\s` and by
`str.strip`/`str.rstrip` (the inputs of this development are ASCII, so
the unicode part of `\s` never fires). -/
def isWS (c : Char) : Bool :=
  c = ' ' || c = '\t' || c = '\n' || c = '\r' || c = '\x0b' || c = '\x0c'

/-- The regex class `\d`. -/
def isDigit (c : Char) : Bool := '0' ≤ c && c ≤ '9'

/-- The regex class `\w` (ASCII part). -/
def isWord (c : Char) : Bool :=
  ('a' ≤ c && c ≤ 'z') || ('A' ≤ c && c ≤ 'Z') || isDigit c || c = '_'

/-- The regex class `[0-9a-f]` under `re.I`. -/
def isHexDigit (c : Char) : Bool :=
  isDigit c || ('a' ≤ c && c ≤ 'f') || ('A' ≤ c && c ≤ 'F')

/-- `[01]` under `re.I`. -/
def isBinDigit (c : Char) : Bool := c = '0' || c = '1'

-- ------------------------------------------------------------------
-- The stream (`io.StringIO`-like object owned by a `StreamParser`)
-- ------------------------------------------------------------------

/-- A seekable character stream: the full text plus the cursor. -/
structure Strm where
  text : List Char
  pos : Nat
  deriving DecidableEq

/-- `stream.read(n)`: returns up to `n` characters and advances the
cursor past them. -/
def sread (s : Strm) (n : Nat) : List Char × Strm :=
  let chunk := (s.text.drop s.pos).take n
  (chunk, ⟨s.text, s.pos + chunk.length⟩)

/-- `parser.py` line 23: `CHUNK_SIZE = 10`. -/
def CHUNK_SIZE : Nat := 10

/--
The chunk scan of `line_iter` (parser.py lines 94-105): iterate the
matches of `re.compile(r'["\n]')` over one chunk in order, toggling
`string_state` at every quote, and stop at the first newline seen while
the state is off, returning `m.end()` for that match.  Characters that
are neither a quote nor a newline are skipped by `finditer` with no
state change, which is what the final branch does.
-/
def findBreak : List Char → Bool → Bool × Option Nat
  | [], st => (st, none)
  | c :: cs, st =>
    if c = '"' then
      let r := findBreak cs (!st)
      (r.1, r.2.map (· + 1))
    else if c = '\n' then
      if st then
        let r := findBreak cs st
        (r.1, r.2.map (· + 1))
      else (false, some 1)
    else
      let r := findBreak cs st
      (r.1, r.2.map (· + 1))

/--
`StreamParser.line_iter` (parser.py lines 58-113), with the push-back
stack already empty (the stack prefix is added by `line_iterFull`
below).  One recursion step corresponds to one `stream.read` call, so
the fuel bounds the number of chunk reads; `none` means the fuel ran
out (the lemmas below show `text.length + 2` always suffices).

The result is the list of yielded lines paired with a flag that is
`true` exactly when the final `raise DBCSyntaxError` fires.  In the
newline-break branch the code rewinds the stream by
`chunk_excess = len(chunk) - m.end()` and truncates the line buffer by
the same amount, so the yielded line keeps its terminating newline.
The `line = []` / `string_state` tests in that branch reproduce the
per-line epilogue (lines 107-113) literally.
-/
def line_iter_aux (csize : Nat) : Nat → Strm → List Char → Bool →
    Option (List (List Char) × Bool)
  | 0, _, _, _ => none
  | fuel + 1, s, line, st =>
    let chunk := (sread s csize).1
    let s1 := (sread s csize).2
    if chunk = [] then
      -- EOF branch: `if not chunk: break`, then lines 107-113.
      if line = [] then some ([], false)
      else if st then some ([], true)
      else
        match line_iter_aux csize fuel s1 [] st with
        | none => none
        | some (ls, e) => some (line :: ls, e)
    else
      let line1 := line ++ chunk
      match findBreak chunk st with
      | (st2, none) => line_iter_aux csize fuel s1 line1 st2
      | (st2, some e) =>
        let excess := chunk.length - e
        let line2 := line1.take (line1.length - excess)
        let s2 : Strm := ⟨s1.text, s1.pos - excess⟩
        if line2 = [] then some ([], false)
        else if st2 then some ([], true)
        else
          match line_iter_aux csize fuel s2 [] st2 with
          | none => none
          | some (ls, e2) => some (line2 :: ls, e2)

/-- `line_iter` on a fresh stream over `text` with an empty push-back
stack, chunk size `csize`.  Fuel `text.length + 2` is always enough
(`line_iter_eq_scan` below). -/
def line_iterStream (csize : Nat) (text : List Char) :
    Option (List (List Char) × Bool) :=
  line_iter_aux csize (text.length + 2) ⟨text, 0⟩ [] false

/-- `line_iter` including the push-back stack drain (parser.py lines
79-80): stacked lines are yielded first, FIFO, before the stream is
read. -/
def line_iterFull (stack : List (List Char)) (csize : Nat)
    (text : List Char) : Option (List (List Char) × Bool) :=
  (line_iterStream csize text).map fun p => (stack ++ p.1, p.2)

/--
Character-level restatement of the same scan, used as the reference
point of the chunk-size-independence proofs: process one character at
a time, toggling the in-string state at quotes and ending a line (the
newline included) at every newline seen outside a string; at EOF an
empty buffer ends the iteration, a nonempty buffer inside a string
raises, and a nonempty buffer outside a string is yielded as a final
line.
-/
def scanLines : List Char → Bool → List Char → List (List Char) × Bool
  | [], st, buf =>
    if buf = [] then ([], false)
    else if st then ([], true)
    else ([buf], false)
  | c :: rest, st, buf =>
    if c = '"' then scanLines rest (!st) (buf ++ [c])
    else if c = '\n' then
      if st then scanLines rest st (buf ++ [c])
      else
        let r := scanLines rest false []
        ((buf ++ [c]) :: r.1, r.2)
    else scanLines rest st (buf ++ [c])

/-- Prepends pending buffered characters to the head of a piece list -
the bookkeeping device of the quote-free characterisation of the
scan. -/
def glueBuf (buf : List Char) : List (List Char) → List (List Char)
  | [] => if buf = [] then [] else [buf]
  | p :: ps => (buf ++ p) :: ps

/-- Quote parity of a text: the in-string state after scanning it from
state `st`. -/
def endState : List Char → Bool → Bool
  | [], st => st
  | c :: cs, st => endState cs (if c = '"' then !st else st)

/-- The claim C1 reading of the tokenizer output (written from the
words of the spec, for comparison only): the text split on newline
characters, the separators removed - so every piece arrives with its
trailing newline stripped. -/
def specSplitStrip : List Char → List (List Char)
  | [] => [[]]
  | c :: cs =>
    if c = '\n' then [] :: specSplitStrip cs
    else
      match specSplitStrip cs with
      | [] => [[c]]
      | l :: ls => (c :: l) :: ls

/-- What the code actually produces on quote-free text: the text cut
after every newline, each piece keeping its terminating newline, with
no empty final piece. -/
def splitKeepEnds : List Char → List (List Char)
  | [] => []
  | c :: cs =>
    if c = '\n' then ['\n'] :: splitKeepEnds cs
    else
      match splitKeepEnds cs with
      | [] => [[c]]
      | l :: ls => (c :: l) :: ls

-- ------------------------------------------------------------------
-- Small scanner building blocks shared by the regex embeddings
-- ------------------------------------------------------------------

/-- Negation of `isWS`, the regex class `\S`. -/
def notWS (c : Char) : Bool := !(isWS c)

/-- Consume `\s*` (greedy; deterministic whenever the following regex
element cannot match a whitespace character). -/
def dropWS (l : List Char) : List Char := l.dropWhile isWS

/-- `str.rstrip()` and the tail `\s*$`: remove the maximal whitespace
suffix. -/
def rstrip (l : List Char) : List Char := (l.reverse.dropWhile isWS).reverse

/-- Consume a literal, e.g. the anchored prefix `^BO_`. -/
def stripLit : List Char → List Char → Option (List Char)
  | [], l => some l
  | _ :: _, [] => none
  | c :: cs, d :: ds => if c = d then stripLit cs ds else none

/-- Consume a maximal nonempty run of characters satisfying `p` and
return (run, rest): the greedy `\d+`, `\w+`, `\S+`, `\s+`.  This is the
exact engine behaviour whenever the regex element that follows cannot
match a character of the class `p`, which is the case at every use
below. -/
def tokP (p : Char → Bool) (l : List Char) : Option (List Char × List Char) :=
  let t := l.takeWhile p
  if t = [] then none else some (t, l.dropWhile p)

/-- Consume `\s+`. -/
def wsPlus (l : List Char) : Option (List Char) := (tokP isWS l).map (·.2)

/-- Consume `"([^"]*)"` and return (capture, rest).  The class excludes
the quote, so the closing quote is necessarily the first quote after
the opening one - no backtracking. -/
def quotedCap (l : List Char) : Option (List Char × List Char) :=
  match l with
  | '"' :: r =>
    let m := r.takeWhile (· != '"')
    match r.dropWhile (· != '"') with
    | '"' :: r2 => some (m, r2)
    | _ => none
  | _ => none

-- ------------------------------------------------------------------
-- Python numeric literals
-- ------------------------------------------------------------------

/-- Value of a nonempty decimal digit string. -/
def natOfDigits (l : List Char) : Nat :=
  l.foldl (fun a c => a * 10 + (c.toNat - '0'.toNat)) 0

/-- Value of one hex digit (`[0-9a-fA-F]`). -/
def hexDigitVal (c : Char) : Nat :=
  if isDigit c then c.toNat - '0'.toNat
  else if 'a' ≤ c && c ≤ 'f' then c.toNat - 'a'.toNat + 10
  else c.toNat - 'A'.toNat + 10

def natOfHexDigits (l : List Char) : Nat :=
  l.foldl (fun a c => a * 16 + hexDigitVal c) 0

def natOfBinDigits (l : List Char) : Nat :=
  l.foldl (fun a c => a * 2 + (c.toNat - '0'.toNat)) 0

/-- Python `int(str)` on a whitespace-free piece: `[+-]?\d+`. -/
def pyInt (s : List Char) : Option Int :=
  let p : Int × List Char :=
    match s with
    | '+' :: r => (1, r)
    | '-' :: r => (-1, r)
    | r => (1, r)
  if p.2 ≠ [] && p.2.all isDigit then some (p.1 * natOfDigits p.2) else none

/-- The exact rational `sgn * mant * 10^ex / 10^fracLen` denoted by a
decimal literal, built with a single `mkRat` so that it reduces in the
kernel.  Python floats are modelled as exact rationals; nothing proved
here depends on binary rounding. -/
def decimalRat (sgn : Int) (mant : List Char) (fracLen : Nat) (ex : Int) :
    Rat :=
  if 0 ≤ ex then
    mkRat (sgn * (natOfDigits mant : Int) * 10 ^ ex.toNat) (10 ^ fracLen)
  else mkRat (sgn * (natOfDigits mant : Int)) (10 ^ (fracLen + (-ex).toNat))

/--
Exponent tail of a float literal: `([eE][+-]?\d+)?` followed by the end
of the literal.  `sgn` is the sign, `mant` the mantissa digits with the
decimal point removed, `fracLen` how many of them were fractional.
-/
def floatExp (sgn : Int) (mant : List Char) (fracLen : Nat) :
    List Char → Option Rat
  | [] => some (decimalRat sgn mant fracLen 0)
  | e :: r1 =>
    if e = 'e' || e = 'E' then
      let p : Int × List Char :=
        match r1 with
        | '+' :: r2 => (1, r2)
        | '-' :: r2 => (-1, r2)
        | r2 => (1, r2)
      let d3 := p.2.takeWhile isDigit
      let r3 := p.2.dropWhile isDigit
      if d3 = [] ∨ r3 ≠ [] then none
      else some (decimalRat sgn mant fracLen (p.1 * (natOfDigits d3 : Int)))
    else none

/--
A full float literal: `[+-]?(\d*\.\d+|\d+\.?)([eE][+-]?\d+)?` matched
against the whole input (both the second entry of `_t_flex_map` - whose
`re.search` anchors only at `$`, see `findFloatVal` - and Python
`float()` on a stripped string accept exactly this shape; `inf`, `nan`
and digit underscores never occur in a DBC file and are not modelled).
-/
def floatLitVal (s : List Char) : Option Rat :=
  let p : Int × List Char :=
    match s with
    | '+' :: r => (1, r)
    | '-' :: r => (-1, r)
    | r => (1, r)
  let d1 := p.2.takeWhile isDigit
  let r1 := p.2.dropWhile isDigit
  match r1 with
  | '.' :: r2 =>
    let d2 := r2.takeWhile isDigit
    let r3 := r2.dropWhile isDigit
    if d1 = [] && d2 = [] then none
    else floatExp p.1 (d1 ++ d2) d2.length r3
  | _ => if d1 = [] then none else floatExp p.1 d1 0 r1

/-- Python `float(str)`: surrounding whitespace is stripped first. -/
def pyFloat (s : List Char) : Option Rat := floatLitVal (dropWS (rstrip s))

/--
The float entry of `_t_flex_map` (parser.py line 252) uses `re.search`
with a pattern anchored at `$` but NOT at `^`, so it matches the
longest suffix of the value that is float-shaped (leftmost match start
and the `$` anchor force the match to be exactly a suffix).  This scans
the start positions left to right and returns the value of the first
(hence longest) float-shaped suffix.
-/
def findFloatVal : List Char → Option Rat
  | [] => none
  | c :: rest =>
    match floatLitVal (c :: rest) with
    | some q => some q
    | none => findFloatVal rest

/-- A dynamically typed attribute value as produced by
`_t_flexible_val`. -/
inductive FlexVal where
  | int (i : Int)
  | float (q : Rat)
  | str (s : List Char)
  | raw (s : List Char)
  deriving DecidableEq, Repr

/-- `^(?P<val>[+-]?\d+)$` (first entry of `_t_flex_map`). -/
def intLitVal (s : List Char) : Option Int := pyInt s

/-- `^0x(?P<val>[0-9a-f]+)$` with `re.I` (third entry). -/
def hexLitVal (s : List Char) : Option Int :=
  match s with
  | '0' :: x :: r =>
    if (x = 'x' || x = 'X') && !r.isEmpty && r.all isHexDigit then
      some (natOfHexDigits r)
    else none
  | _ => none

/-- `^0b(?P<val>[01]+)$` with `re.I` (fourth entry). -/
def binLitVal (s : List Char) : Option Int :=
  match s with
  | '0' :: b :: r =>
    if (b = 'b' || b = 'B') && !r.isEmpty && r.all isBinDigit then
      some (natOfBinDigits r)
    else none
  | _ => none

/-- `^"(?P<val>[^"]*)"$` (fifth entry). -/
def strLitVal (s : List Char) : Option (List Char) :=
  match s with
  | '"' :: r =>
    let m := r.takeWhile (· != '"')
    match r.dropWhile (· != '"') with
    | ['"'] => some m
    | _ => none
  | _ => none

/-- `_t_flexible_val` (parser.py lines 258-263): try the five matchers
of `_t_flex_map` in order, fall back to the raw text. -/
def _t_flexible_val (s : List Char) : FlexVal :=
  match intLitVal s with
  | some i => .int i
  | none =>
    match findFloatVal s with
    | some q => .float q
    | none =>
      match hexLitVal s with
      | some i => .int i
      | none =>
        match binLitVal s with
        | some i => .int i
        | none =>
          match strLitVal s with
          | some m => .str m
          | none => .raw s

-- ------------------------------------------------------------------
-- Typed records (the LineObject subclasses) and field coercions
-- ------------------------------------------------------------------

/-- `Frame` fields after coercion by its `_TYPE_MAP`. -/
structure FrameRec where
  address : Nat
  name : List Char
  dlc : Nat
  transmitter : Option (List Char)
  deriving DecidableEq, Repr

/-- `Signal` fields after coercion; `frame` is the late-bound link set
by `Signal.link_to_frame` (absent until the parser sets it). -/
structure SignalRec where
  name : List Char
  mux : Option (List Char)
  start : Nat
  length : Nat
  little_endian : Bool
  signed : Bool
  factor : Rat
  offset : Rat
  min : Rat
  max : Rat
  unit : List Char
  receivers : List (List Char)
  frame : Option FrameRec := none
  deriving DecidableEq, Repr

/-- Which Python type object `GlobalDefine.__init__` stores in
`self.type` (`HEX` and `INT` both map to `int`, `STR` and `STRING`
both to `str`, `ENUM` to `tuple`). -/
inductive DefTy where
  | str
  | int
  | float
  | bool
  | enum
  deriving DecidableEq, Repr

/-- `self.params` of a define, by type. -/
inductive DefParams where
  | ints (l : List Int)
  | floats (l : List Rat)
  | bools (l : List Bool)
  | enums (l : List (List Char))
  | noParams
  deriving DecidableEq, Repr

/-- Which of the four `BA_DEF_` classes matched. -/
inductive DefScope where
  | global
  | sg
  | bo
  | bu
  deriving DecidableEq, Repr

/-- One record per `@dbc_line` class, fields fully coerced. -/
inductive Record where
  | ns
  | bs
  | version (text : List Char)
  | frame (f : FrameRec)
  | signal (s : SignalRec)
  | signalComment (address : Nat) (name : List Char) (comment : List Char)
  | frameComment (address : Nat) (comment : List Char)
  | nodeList (nodes : List (List Char))
  | nodeComment (node : List Char) (comment : List Char)
  | enumeration (address : Nat) (signal : List Char)
      (enums : List (Nat × List Char))
  | valueTable (table : List Char) (enums : List (Nat × List Char))
  | define (scope : DefScope) (name : List Char) (ty : DefTy)
      (params : DefParams)
  | globalAttribute (name : List Char) (value : FlexVal)
  | signalAttribute (name : List Char) (address : Nat)
      (signal_name : List Char) (value : FlexVal)
  | frameAttribute (name : List Char) (address : Nat) (value : FlexVal)
  | nodeAttribute (name : List Char) (node_name : List Char)
      (value : FlexVal)
  | defaultValue (name : List Char) (value : FlexVal)
  deriving DecidableEq, Repr

/-- `_t_transmitter`: the null node becomes `none`. -/
def _t_transmitter (v : List Char) : Option (List Char) :=
  if v = ("Vector__XXX").toList then none else some v

/-- `_t_endianness`: `'1'` means little endian. -/
def _t_endianness (v : List Char) : Bool := v = ['1']

/-- `_t_signedness`: `'-'` means signed. -/
def _t_signedness (v : List Char) : Bool := v = ['-']

/-- Split on a literal comma (the separator-adjacent whitespace removed
afterwards by stripping each piece, which on a pre-stripped value is
exactly `re.split` on the pattern of whitespace-padded commas). -/
def splitOnComma : List Char → List (List Char)
  | [] => [[]]
  | c :: cs =>
    if c = ',' then [] :: splitOnComma cs
    else
      match splitOnComma cs with
      | [] => [[c]]
      | p :: ps => (c :: p) :: ps

/-- `_t_nodelist_csv`: comma list, blanks and the null node dropped. -/
def _t_nodelist_csv (v : List Char) : List (List Char) :=
  ((splitOnComma v).map fun p => dropWS (rstrip p)).filter
    fun p => p ≠ [] && p ≠ ("Vector__XXX").toList

/-- Whitespace-run tokeniser: `re.split` on runs of whitespace with the
empty pieces removed, as in `_t_nodelist_space`. -/
def wsTokensAux : List Char → List Char → List (List Char)
  | [], acc => if acc = [] then [] else [acc.reverse]
  | c :: cs, acc =>
    if isWS c then
      if acc = [] then wsTokensAux cs []
      else acc.reverse :: wsTokensAux cs []
    else wsTokensAux cs (c :: acc)

def _t_nodelist_space (v : List Char) : List (List Char) := wsTokensAux v []

/-- `re.split(r'\s+', s)` with the empty pieces kept, as used on define
parameters: a leading or trailing whitespace run produces an empty
piece there. -/
def reSplitWS : List Char → List (List Char)
  | [] => [[]]
  | c :: cs =>
    if isWS c then [] :: reSplitWS (cs.dropWhile isWS)
    else
      match reSplitWS cs with
      | [] => [[c]]
      | p :: ps => (c :: p) :: ps
  termination_by l => l.length
  decreasing_by
    · simp only [List.length_cons]
      exact Nat.lt_succ_of_le (List.dropWhile_sublist _).length_le
    · simp

/-- Python dict insertion: overwrite in place, else append.  Used for
the enum dictionaries built by `_t_enum_list` (last writer wins). -/
def dictInsert : List (Nat × List Char) → Nat → List Char →
    List (Nat × List Char)
  | [], k, v => [(k, v)]
  | (k0, v0) :: rest, k, v =>
    if k0 = k then (k0, v) :: rest
    else (k0, v0) :: dictInsert rest k v

def dictOfPairs (ps : List (Nat × List Char)) : List (Nat × List Char) :=
  ps.foldl (fun m p => dictInsert m p.1 p.2) []

-- ------------------------------------------------------------------
-- The per-class regex embeddings (`cls._REGEX.search` + captures)
-- ------------------------------------------------------------------

/-- `NS_`: `^NS_\s*:\s*$`. -/
def NSLine_match (l : List Char) : Bool :=
  match stripLit (("NS_").toList) l with
  | some r =>
    match dropWS r with
    | ':' :: r2 => dropWS r2 = []
    | _ => false
  | none => false

/-- `BS_`: `^BS_\s*:\s*$`. -/
def BSLine_match (l : List Char) : Bool :=
  match stripLit (("BS_").toList) l with
  | some r =>
    match dropWS r with
    | ':' :: r2 => dropWS r2 = []
    | _ => false
  | none => false

/-- `Version`: `^VERSION\s*"(?P<text>[^"]*)"\s*$`. -/
def Version_from_line (l : List Char) : Option Record :=
  match stripLit (("VERSION").toList) l with
  | some r =>
    match quotedCap (dropWS r) with
    | some (text, r2) => if dropWS r2 = [] then some (.version text) else none
    | none => none
  | none => none

/-- Splits a token at its last colon: `name:rest` with the name part
maximal, which is how the engine backtracks `(?P<name>\S+)\s*:` when
the colon is glued to the name token. -/
def lastColonSplit (t : List Char) : Option (List Char × List Char) :=
  let rev := t.reverse
  let a := rev.takeWhile (· != ':')
  match rev.dropWhile (· != ':') with
  | ':' :: b => some (b.reverse, a.reverse)
  | _ => none

/--
`Frame`: `^BO_\s+(?P<address>\d+)\s*(?P<name>\S+)\s*:\s*(?P<dlc>\d+)\s+
(?P<transmitter>\S+)\s*$`.  The name token is maximal; when it carries
the colon itself (`Batt107:4`) the engine maximises the name, i.e.
splits at the last colon of the token.
-/
def Frame_from_line (l : List Char) : Option Record :=
  match stripLit (("BO_").toList) l with
  | none => none
  | some r =>
    match wsPlus r with
    | none => none
    | some r1 =>
      match tokP isDigit r1 with
      | none => none
      | some (addr, r2) =>
        match tokP notWS (dropWS r2) with
        | none => none
        | some (t, rest) =>
          let nr : Option (List Char × List Char) :=
            if t.elem ':' then
              match lastColonSplit t with
              | some (nm, after) =>
                if nm = [] then none else some (nm, after ++ rest)
              | none => none
            else
              match dropWS rest with
              | ':' :: r4 => some (t, r4)
              | _ => none
          match nr with
          | none => none
          | some (nm, r4) =>
            match tokP isDigit (dropWS r4) with
            | none => none
            | some (dlc, r5) =>
              match wsPlus r5 with
              | none => none
              | some r6 =>
                match tokP notWS r6 with
                | none => none
                | some (tx, r7) =>
                  if dropWS r7 = [] then
                    some (.frame ⟨natOfDigits addr, nm, natOfDigits dlc,
                      _t_transmitter tx⟩)
                  else none

/--
A lazy field such as `(?P<factor>[^,]+?)\s*,`: grow the capture one
character at a time (each must differ from `excl`, the character the
class excludes) and stop at the first point where optional whitespace
followed by `term` completes it; returns (capture, rest-after-term).
Matches the engine whenever the field contains a non-whitespace
character, which every well-formed DBC line does.
-/
def lazyField (excl term : Char) : List Char → Option (List Char × List Char)
  | [] => none
  | c :: cs =>
    if c = excl then none
    else
      match dropWS cs with
      | t :: r => if t = term then some ([c], r)
                  else (lazyField excl term cs).map fun p => (c :: p.1, p.2)
      | [] => (lazyField excl term cs).map fun p => (c :: p.1, p.2)

/--
`Signal` (parser.py lines 347-366).  Steps follow the pattern group by
group; the name/mux/colon region is determinised as in the pattern
comments: the engine maximises the name token, tries the mux variants
`M` and `m\d+` before an absent mux, and when the colon is glued into
the name token splits that token at its last colon with an empty mux.
The four numeric fields go through Python `float()` and may raise -
hence the `Except` layer.
-/
def Signal_from_line (l : List Char) : Option (Except Unit Record) :=
  match stripLit (("SG_").toList) (dropWS l) with
  | none => none
  | some r0 =>
    match wsPlus r0 with
    | none => none
    | some r1 =>
      match tokP notWS r1 with
      | none => none
      | some (t, rest) =>
        -- `(?P<name>\S+)\s*(?P<mux>(M|m\d+))?\s*:`
        let nmr : Option (List Char × Option (List Char) × List Char) :=
          match dropWS rest with
          | 'M' :: r2 =>
            (match dropWS r2 with
             | ':' :: r3 => some (t, some ['M'], r3)
             | _ => none)
          | 'm' :: r2 =>
            (match tokP isDigit r2 with
             | some (ds, r3) =>
               (match dropWS r3 with
                | ':' :: r4 => some (t, some ('m' :: ds), r4)
                | _ => none)
             | none => none)
          | ':' :: r2 => some (t, none, r2)
          | _ =>
            if t.elem ':' then
              match lastColonSplit t with
              | some (nm, after) =>
                if nm = [] then none else some (nm, none, after ++ rest)
              | none => none
            else none
        match nmr with
        | none => none
        | some (nm, mux, r4) =>
          match tokP isDigit (dropWS r4) with
          | none => none
          | some (startS, r5) =>
            match dropWS r5 with
            | '|' :: r6 =>
              match tokP isDigit (dropWS r6) with
              | none => none
              | some (lenS, r7) =>
                match dropWS r7 with
                | '@' :: r8 =>
                  match dropWS r8 with
                  | e :: r9 =>
                    if e = '0' ∨ e = '1' then
                      match dropWS r9 with
                      | sg :: r10 =>
                        if sg = '+' ∨ sg = '-' then
                          match dropWS r10 with
                          | '(' :: r11 =>
                            match lazyField ',' ',' (dropWS r11) with
                            | none => none
                            | some (factorS, r12) =>
                              match lazyField ')' ')' (dropWS r12) with
                              | none => none
                              | some (offsetS, r13) =>
                                match dropWS r13 with
                                | '[' :: r14 =>
                                  match lazyField ',' '|' (dropWS r14) with
                                  | none => none
                                  | some (minS, r15) =>
                                    match lazyField ']' ']' (dropWS r15) with
                                    | none => none
                                    | some (maxS, r16) =>
                                      match quotedCap (dropWS r16) with
                                      | none => none
                                      | some (unit, r17) =>
                                        let recvS := rstrip (dropWS r17)
                                        if recvS.all (· != '\n') then
                                          match pyFloat factorS,
                                            pyFloat offsetS,
                                            pyFloat minS, pyFloat maxS with
                                          | some fa, some off, some mn,
                                            some mx =>
                                            some (.ok (.signal
                                              { name := nm, mux := mux,
                                                start := natOfDigits startS,
                                                length := natOfDigits lenS,
                                                little_endian :=
                                                  _t_endianness [e],
                                                signed := _t_signedness [sg],
                                                factor := fa, offset := off,
                                                min := mn, max := mx,
                                                unit := unit,
                                                receivers :=
                                                  _t_nodelist_csv recvS }))
                                          | _, _, _, _ => some (.error ())
                                        else none
                                | _ => none
                          | _ => none
                        else none
                      | [] => none
                    else none
                  | [] => none
                | _ => none
            | _ => none

-- ------------------------------------------------------------------
-- Comment classes (`re.MULTILINE | re.DOTALL`)
-- ------------------------------------------------------------------

/-- Under `re.MULTILINE`, `$` preceded by `\s*` succeeds at a position
iff end of input is reachable through whitespace alone, or a newline
occurs inside the leading whitespace run. -/
def dollarML (t : List Char) : Bool :=
  (t.takeWhile isWS).elem '\n' || (t.dropWhile isWS).isEmpty

/-- The comment tail `"\s*;\s*$` (multiline `$`), checked after a
candidate closing quote. -/
def commentTail (t : List Char) : Bool :=
  match dropWS t with
  | ';' :: t2 => dollarML t2
  | _ => false

/-- Split at the last `'"'` whose tail satisfies `p`: the greedy DOTALL
capture `(?P<comment>.*)"` picks the last feasible closing quote. -/
def lastQuoteSplit (p : List Char → Bool) :
    List Char → Option (List Char × List Char)
  | [] => none
  | c :: cs =>
    match lastQuoteSplit p cs with
    | some (pre, post) => some (c :: pre, post)
    | none =>
      if c = '"' then
        if p cs then some ([], cs) else none
      else none

/-- The suffixes starting just after each newline: the candidate match
positions contributed by a `re.MULTILINE` `^` anchor, left to right. -/
def nlSuffixes : List Char → List (List Char)
  | [] => []
  | c :: cs => if c = '\n' then cs :: nlSuffixes cs else nlSuffixes cs

/-- `SignalComment` at one anchor:
`^CM_\s+SG_\s+(?P<address>\d+)\s+(?P<name>\w+)\s*"(?P<comment>.*)"\s*;\s*$`. -/
def SignalComment_core (l : List Char) : Option Record :=
  match stripLit (("CM_").toList) l with
  | none => none
  | some r =>
    match wsPlus r with
    | none => none
    | some r1 =>
      match stripLit (("SG_").toList) r1 with
      | none => none
      | some r2 =>
        match wsPlus r2 with
        | none => none
        | some r3 =>
          match tokP isDigit r3 with
          | none => none
          | some (addr, r4) =>
            match wsPlus r4 with
            | none => none
            | some r5 =>
              match tokP isWord r5 with
              | none => none
              | some (nm, r6) =>
                match dropWS r6 with
                | '"' :: r7 =>
                  match lastQuoteSplit commentTail r7 with
                  | some (cm, _) =>
                    some (.signalComment (natOfDigits addr) nm cm)
                  | none => none
                | _ => none

/-- `re.search` with a MULTILINE `^...` pattern: try the start of the
string, then the position after every newline, leftmost first. -/
def SignalComment_from_line (l : List Char) : Option Record :=
  (l :: nlSuffixes l).findSome? SignalComment_core

/-- `FrameComment` at one anchor:
`^CM_\s+BO_\s+(?P<address>\d+)\s+"(?P<comment>.*)"\s*;\s*$`. -/
def FrameComment_core (l : List Char) : Option Record :=
  match stripLit (("CM_").toList) l with
  | none => none
  | some r =>
    match wsPlus r with
    | none => none
    | some r1 =>
      match stripLit (("BO_").toList) r1 with
      | none => none
      | some r2 =>
        match wsPlus r2 with
        | none => none
        | some r3 =>
          match tokP isDigit r3 with
          | none => none
          | some (addr, r4) =>
            match wsPlus r4 with
            | none => none
            | some r5 =>
              match r5 with
              | '"' :: r6 =>
                match lastQuoteSplit commentTail r6 with
                | some (cm, _) =>
                  some (.frameComment (natOfDigits addr) cm)
                | none => none
              | _ => none

def FrameComment_from_line (l : List Char) : Option Record :=
  (l :: nlSuffixes l).findSome? FrameComment_core

/-- `NodeComment` at one anchor:
`^CM_\s+BU_\s+(?P<node>\S+)\s+"(?P<comment>.*)"\s*;\s*$`. -/
def NodeComment_core (l : List Char) : Option Record :=
  match stripLit (("CM_").toList) l with
  | none => none
  | some r =>
    match wsPlus r with
    | none => none
    | some r1 =>
      match stripLit (("BU_").toList) r1 with
      | none => none
      | some r2 =>
        match wsPlus r2 with
        | none => none
        | some r3 =>
          match tokP notWS r3 with
          | none => none
          | some (nd, r4) =>
            match wsPlus r4 with
            | none => none
            | some r5 =>
              match r5 with
              | '"' :: r6 =>
                match lastQuoteSplit commentTail r6 with
                | some (cm, _) => some (.nodeComment nd cm)
                | none => none
              | _ => none

def NodeComment_from_line (l : List Char) : Option Record :=
  (l :: nlSuffixes l).findSome? NodeComment_core

/-- `NodeList`: `^BU_\s*:\s*(?P<nodes>.*)\s*$`.  The capture ends at
the line body; a newline is only tolerated inside leading or trailing
whitespace (`.` does not cross it).  The captured trailing whitespace
is dropped here, which `_t_nodelist_space` would discard anyway. -/
def NodeList_from_line (l : List Char) : Option Record :=
  match stripLit (("BU_").toList) l with
  | none => none
  | some r =>
    match dropWS r with
    | ':' :: r1 =>
      let body := rstrip (dropWS r1)
      if body.all (· != '\n') then some (.nodeList (_t_nodelist_space body))
      else none
    | _ => none

-- ------------------------------------------------------------------
-- Enumerations and value tables
-- ------------------------------------------------------------------

/-- The repeated group `(\d+\s*"[^"]*"\s*)+` together with the
`finditer` scan of `_t_enum_list` over the captured block: parse as
many number/quoted-label pairs as possible and return the rest. -/
def enumPairsAux : Nat → List Char → List (Nat × List Char) × List Char
  | 0, l => ([], l)
  | fuel + 1, l =>
    match tokP isDigit l with
    | none => ([], l)
    | some (d, r1) =>
      match quotedCap (dropWS r1) with
      | none => ([], l)
      | some (m, r2) =>
        let p := enumPairsAux fuel (dropWS r2)
        ((natOfDigits d, m) :: p.1, p.2)

def enumPairs (l : List Char) : List (Nat × List Char) × List Char :=
  enumPairsAux l.length l

/-- `Enumeration`:
`^VAL_\s+(?P<address>\d+)\s+(?P<signal>\S+)\s+(?P<enums>(\d+\s*"[^"]*"\s*)+)\s*;\s*$`. -/
def Enumeration_from_line (l : List Char) : Option Record :=
  match stripLit (("VAL_").toList) l with
  | none => none
  | some r =>
    match wsPlus r with
    | none => none
    | some r1 =>
      match tokP isDigit r1 with
      | none => none
      | some (addr, r2) =>
        match wsPlus r2 with
        | none => none
        | some r3 =>
          match tokP notWS r3 with
          | none => none
          | some (sig, r4) =>
            match wsPlus r4 with
            | none => none
            | some r5 =>
              let p := enumPairs r5
              if p.1 = [] then none
              else
                match p.2 with
                | ';' :: r6 =>
                  if dropWS r6 = [] then
                    some (.enumeration (natOfDigits addr) sig
                      (dictOfPairs p.1))
                  else none
                | _ => none

/-- `ValueTable`:
`^VAL_TABLE_\s+(?P<table>\S+)\s+(?P<enums>(\d+\s*"[^"]*"\s*)+)\s*;\s*$`.
(The source `_TYPE_MAP` spells the key `tble`, so the table name falls
back to the default `str` coercion - same value either way.) -/
def ValueTable_from_line (l : List Char) : Option Record :=
  match stripLit (("VAL_TABLE_").toList) l with
  | none => none
  | some r =>
    match wsPlus r with
    | none => none
    | some r1 =>
      match tokP notWS r1 with
      | none => none
      | some (tbl, r2) =>
        match wsPlus r2 with
        | none => none
        | some r3 =>
          let p := enumPairs r3
          if p.1 = [] then none
          else
            match p.2 with
            | ';' :: r4 =>
              if dropWS r4 = [] then
                some (.valueTable tbl (dictOfPairs p.1))
              else none
            | _ => none

-- ------------------------------------------------------------------
-- Defines (`BA_DEF_` family, shared `GlobalDefine.__init__` coercion)
-- ------------------------------------------------------------------

/-- Split at the last `;` whose tail is pure whitespace: the greedy
`.*` of the define patterns selects the last such semicolon (an earlier
semicolon would leave a later one inside `\s*$`, which cannot match). -/
def lastSemiSplit : List Char → Option (List Char × List Char)
  | [] => none
  | c :: cs =>
    match lastSemiSplit cs with
    | some (pre, post) => some (c :: pre, post)
    | none =>
      if c = ';' then
        if cs.all isWS then some ([], cs) else none
      else none

/--
The define tail `(\s+(?P<params>.*))?\s*;\s*$` applied after the type
token; returns the `params` group (`none` = group did not participate,
Python `None`).  With the group present, `params` runs up to the final
semicolon; since `.` does not match a newline, a newline before that
semicolon must be swallowed by the `\s*`, so the capture stops at the
first newline and the remainder up to the semicolon has to be
whitespace.
-/
def defineTail : List Char → Option (Option (List Char))
  | [] => none
  | c :: r3 =>
    if isWS c then
      match lastSemiSplit ((c :: r3).dropWhile isWS) with
      | some (pre, _) =>
        if pre.all (· != '\n') then some (some pre)
        else
          let ps := pre.takeWhile (· != '\n')
          if (pre.dropWhile (· != '\n')).all isWS then some (some ps)
          else none
      | none => none
    else
      match c :: r3 with
      | ';' :: r4 => if r4.all isWS then some none else none
      | _ => none

/-- Python `str.lower`. -/
def pyLower (l : List Char) : List Char := l.map Char.toLower

/-- `finditer` of `"(?P<val>[^"]+)"` over the ENUM parameter text:
non-overlapping quoted nonempty chunks, left to right.  Every step
consumes at least one character, so fuel equal to the length is always
enough. -/
def quotedItemsAux : Nat → List Char → List (List Char)
  | 0, _ => []
  | fuel + 1, l =>
    match l with
    | [] => []
    | c :: cs =>
      if c = '"' then
        match quotedCap (c :: cs) with
        | some (m, r2) =>
          if m = [] then quotedItemsAux fuel cs
          else m :: quotedItemsAux fuel r2
        | none => quotedItemsAux fuel cs
      else quotedItemsAux fuel cs

def quotedItems (l : List Char) : List (List Char) :=
  quotedItemsAux l.length l

/--
`GlobalDefine.__init__` (parser.py lines 542-579): map the type tag
(`KeyError` for an unknown tag), then build `self.params` - numeric
min/max lists through `int()`/`float()` (a `ValueError` for a bad
literal, a `TypeError` when the params group is absent), the BOOL
token list, the ENUM label tuple, or no parameters for strings.
-/
def buildDefine (scope : DefScope) (name ty : List Char)
    (params : Option (List Char)) : Except Unit Record :=
  if ty = ("STR").toList ∨ ty = ("STRING").toList then
    .ok (.define scope name .str .noParams)
  else if ty = ("INT").toList ∨ ty = ("HEX").toList then
    match params with
    | none => .error ()
    | some p =>
      let vals := (reSplitWS p).map pyInt
      if vals.all (·.isSome) then
        .ok (.define scope name .int (.ints (vals.map (·.getD 0))))
      else .error ()
  else if ty = ("FLOAT").toList then
    match params with
    | none => .error ()
    | some p =>
      let vals := (reSplitWS p).map pyFloat
      if vals.all (·.isSome) then
        .ok (.define scope name .float (.floats (vals.map (·.getD 0))))
      else .error ()
  else if ty = ("BOOL").toList then
    match params with
    | none => .error ()
    | some p =>
      .ok (.define scope name .bool (.bools
        (((reSplitWS p).filter (· ≠ [])).map
          fun v => pyLower v == ("true").toList)))
  else if ty = ("ENUM").toList then
    match params with
    | none => .error ()
    | some p =>
      .ok (.define scope name .enum (.enums
        ((quotedItems p).map fun m => dropWS (rstrip m))))
  else .error ()

/--
The shared shape `"(?P<name>[^"]*)"\s*(?P<type>\S+)(\s+(?P<params>.*))?
\s*;\s*$` after the class-specific prefix.  When the final semicolon is
glued onto the type token (`STRING;`) the engine backtracks the `\S+`
by exactly that semicolon.
-/
def defineCore (scope : DefScope) (r : List Char) :
    Option (Except Unit Record) :=
  match quotedCap (dropWS r) with
  | none => none
  | some (name, r1) =>
    match tokP notWS (dropWS r1) with
    | none => none
    | some (t, rest) =>
      match defineTail rest with
      | some params => some (buildDefine scope name t params)
      | none =>
        if t.getLast? = some ';' && 1 < t.length && rest.all isWS then
          some (buildDefine scope name t.dropLast none)
        else none

/-- `GlobalDefine`: `^BA_DEF_\s*"..."...`. -/
def GlobalDefine_from_line (l : List Char) : Option (Except Unit Record) :=
  match stripLit (("BA_DEF_").toList) l with
  | some r => defineCore .global r
  | none => none

/-- `SignalDefine`: `^BA_DEF_\s+SG_\s*"..."...`. -/
def SignalDefine_from_line (l : List Char) : Option (Except Unit Record) :=
  match stripLit (("BA_DEF_").toList) l with
  | some r =>
    match wsPlus r with
    | some r1 =>
      match stripLit (("SG_").toList) r1 with
      | some r2 => defineCore .sg r2
      | none => none
    | none => none
  | none => none

/-- `FrameDefine`: `^BA_DEF_\s+BO_\s*"..."...`. -/
def FrameDefine_from_line (l : List Char) : Option (Except Unit Record) :=
  match stripLit (("BA_DEF_").toList) l with
  | some r =>
    match wsPlus r with
    | some r1 =>
      match stripLit (("BO_").toList) r1 with
      | some r2 => defineCore .bo r2
      | none => none
    | none => none
  | none => none

/-- `NodeDefine`: `^BA_DEF_\s+BU_\s*"..."...`. -/
def NodeDefine_from_line (l : List Char) : Option (Except Unit Record) :=
  match stripLit (("BA_DEF_").toList) l with
  | some r =>
    match wsPlus r with
    | some r1 =>
      match stripLit (("BU_").toList) r1 with
      | some r2 => defineCore .bu r2
      | none => none
    | none => none
  | none => none

-- ------------------------------------------------------------------
-- Attributes (`BA_` family) and default values
-- ------------------------------------------------------------------

/-- Split at the first `;` whose tail is pure whitespace: the lazy
`.*?` of the attribute patterns stops at the first semicolon that lets
`\s*$` close the line. -/
def semiSplit : List Char → Option (List Char × List Char)
  | [] => none
  | c :: cs =>
    if c = ';' then
      if cs.all isWS then some ([], cs)
      else (semiSplit cs).map fun p => (c :: p.1, p.2)
    else (semiSplit cs).map fun p => (c :: p.1, p.2)

/-- The attribute value region `(?P<value>.*?)\s*;\s*$`: everything up
to that semicolon, the whitespace gap before it absorbed by `\s*`; a
newline inside the value itself kills the match (`.` does not cross
newlines, and the surrounding `\s*` only reach the value's ends). -/
def valueSemi (r : List Char) : Option (List Char) :=
  match semiSplit r with
  | some (pre, _) =>
    let v := rstrip pre
    if v.all (· != '\n') then some v else none
  | none => none

/-- The shared attribute prefix `^BA_\s*"(?P<name>[^"]*)"`. -/
def baQuoted (l : List Char) : Option (List Char × List Char) :=
  match stripLit (("BA_").toList) l with
  | some r => quotedCap (dropWS r)
  | none => none

/-- `GlobalAttribute`: `^BA_\s*"..."\s*(?P<value>.*?)\s*;\s*$`. -/
def GlobalAttribute_from_line (l : List Char) : Option Record :=
  match baQuoted l with
  | some (name, r) =>
    match valueSemi (dropWS r) with
    | some v => some (.globalAttribute name (_t_flexible_val v))
    | none => none
  | none => none

/-- `SignalAttribute`:
`^BA_\s*"..."\s*SG_\s+(?P<address>\d+)\s+(?P<signal_name>\w+)\s+
(?P<value>.*?)\s*;\s*$`. -/
def SignalAttribute_from_line (l : List Char) : Option Record :=
  match baQuoted l with
  | some (name, r) =>
    match stripLit (("SG_").toList) (dropWS r) with
    | some r1 =>
      match wsPlus r1 with
      | some r2 =>
        match tokP isDigit r2 with
        | some (addr, r3) =>
          match wsPlus r3 with
          | some r4 =>
            match tokP isWord r4 with
            | some (sn, r5) =>
              match wsPlus r5 with
              | some r6 =>
                match valueSemi r6 with
                | some v => some (.signalAttribute name (natOfDigits addr)
                    sn (_t_flexible_val v))
                | none => none
              | none => none
            | none => none
          | none => none
        | none => none
      | none => none
    | none => none
  | none => none

/-- `FrameAttribute`:
`^BA_\s*"..."\s*BO_\s+(?P<address>\d+)\s+(?P<value>.*?)\s*;\s*$`. -/
def FrameAttribute_from_line (l : List Char) : Option Record :=
  match baQuoted l with
  | some (name, r) =>
    match stripLit (("BO_").toList) (dropWS r) with
    | some r1 =>
      match wsPlus r1 with
      | some r2 =>
        match tokP isDigit r2 with
        | some (addr, r3) =>
          match wsPlus r3 with
          | some r4 =>
            match valueSemi r4 with
            | some v => some (.frameAttribute name (natOfDigits addr)
                (_t_flexible_val v))
            | none => none
          | none => none
        | none => none
      | none => none
    | none => none
  | none => none

/-- `NodeAttribute`:
`^BA_\s*"..."\s*BU_\s+(?P<node_name>\w+)\s+(?P<value>.*?)\s*;\s*$`. -/
def NodeAttribute_from_line (l : List Char) : Option Record :=
  match baQuoted l with
  | some (name, r) =>
    match stripLit (("BU_").toList) (dropWS r) with
    | some r1 =>
      match wsPlus r1 with
      | some r2 =>
        match tokP isWord r2 with
        | some (nn, r3) =>
          match wsPlus r3 with
          | some r4 =>
            match valueSemi r4 with
            | some v => some (.nodeAttribute name nn (_t_flexible_val v))
            | none => none
          | none => none
        | none => none
      | none => none
    | none => none
  | none => none

/-- `DefaultValue`: `^BA_DEF_DEF_\s*"..."\s*(?P<value>.*?)\s*;\s*$`. -/
def DefaultValue_from_line (l : List Char) : Option Record :=
  match stripLit (("BA_DEF_DEF_").toList) l with
  | some r =>
    match quotedCap (dropWS r) with
    | some (name, r1) =>
      match valueSemi (dropWS r1) with
      | some v => some (.defaultValue name (_t_flexible_val v))
      | none => none
    | none => none
  | none => none

-- ------------------------------------------------------------------
-- Classification (`get_obj`: first match over `DBC_LINE_CLASSES`)
-- ------------------------------------------------------------------

/--
`get_obj` inside `DBCParser.parse` (parser.py lines 126-131): try
`cls.from_line` for every registered class in registration order (the
source order of the `@dbc_line` decorations); the first match wins;
`None` when nothing matches.  A coercion failure inside a matched
builder propagates immediately (`Except.error`).
-/
def dbcClassify (l : List Char) : Except Unit (Option Record) :=
  if NSLine_match l then .ok (some .ns)
  else if BSLine_match l then .ok (some .bs)
  else
    match Version_from_line l with
    | some r => .ok (some r)
    | none =>
    match Frame_from_line l with
    | some r => .ok (some r)
    | none =>
    match Signal_from_line l with
    | some (.ok r) => .ok (some r)
    | some (.error e) => .error e
    | none =>
    match SignalComment_from_line l with
    | some r => .ok (some r)
    | none =>
    match FrameComment_from_line l with
    | some r => .ok (some r)
    | none =>
    match NodeList_from_line l with
    | some r => .ok (some r)
    | none =>
    match NodeComment_from_line l with
    | some r => .ok (some r)
    | none =>
    match Enumeration_from_line l with
    | some r => .ok (some r)
    | none =>
    match ValueTable_from_line l with
    | some r => .ok (some r)
    | none =>
    match GlobalDefine_from_line l with
    | some (.ok r) => .ok (some r)
    | some (.error e) => .error e
    | none =>
    match SignalDefine_from_line l with
    | some (.ok r) => .ok (some r)
    | some (.error e) => .error e
    | none =>
    match FrameDefine_from_line l with
    | some (.ok r) => .ok (some r)
    | some (.error e) => .error e
    | none =>
    match NodeDefine_from_line l with
    | some (.ok r) => .ok (some r)
    | some (.error e) => .error e
    | none =>
    match GlobalAttribute_from_line l with
    | some r => .ok (some r)
    | none =>
    match SignalAttribute_from_line l with
    | some r => .ok (some r)
    | none =>
    match FrameAttribute_from_line l with
    | some r => .ok (some r)
    | none =>
    match NodeAttribute_from_line l with
    | some r => .ok (some r)
    | none =>
    match DefaultValue_from_line l with
    | some r => .ok (some r)
    | none => .ok none

-- ------------------------------------------------------------------
-- `DBCParser.parse`
-- ------------------------------------------------------------------

/-- Errors a parse can raise. -/
inductive ParseErr where
  | dbcSyntax
  | unrecognised (line : List Char)
  | coercion
  deriving DecidableEq, Repr

deriving instance DecidableEq for Except

/-- `re.search(r'^\s+', line)`: the line starts with whitespace. -/
def startsWS : List Char → Bool
  | [] => false
  | c :: _ => isWS c

/--
The per-record state changes of `DBCParser.parse` (parser.py lines
156-166): a `Frame` becomes the new `frame_latest`, a `Signal` gets
`link_to_frame(frame_latest)` called on it, an `NS_:`/`BS_:` marker
sets `ignore_tabbed`; the (possibly linked) record is appended.
Returns (appended record, new frame_latest, new ignore_tabbed).
-/
def recStep (obj : Record) (frameLatest : Option FrameRec) :
    Record × Option FrameRec × Bool :=
  match obj with
  | .frame f => (.frame f, some f, false)
  | .signal s => (.signal { s with frame := frameLatest }, frameLatest, false)
  | .ns => (.ns, frameLatest, true)
  | .bs => (.bs, frameLatest, true)
  | o => (o, frameLatest, false)

/--
The per-line loop of `DBCParser.parse` (parser.py lines 133-166) over
an explicit list of logical lines, carrying the two state variables
`frame_latest` and `ignore_tabbed`: skip blank lines, skip
whitespace-led lines while ignoring a tabbed block, classify, fail on
an unrecognised line in strict mode or skip it otherwise, and apply
`recStep` to the classified record.
-/
def parseGo (strict : Bool) : List (List Char) → Option FrameRec → Bool →
    Except ParseErr (List Record)
  | [], _, _ => .ok []
  | line :: rest, frameLatest, ignoreTabbed =>
    if rstrip line = [] then parseGo strict rest frameLatest ignoreTabbed
    else if ignoreTabbed && startsWS line then
      parseGo strict rest frameLatest true
    else
      match dbcClassify line with
      | .error _ => .error .coercion
      | .ok none =>
        if strict then .error (.unrecognised line)
        else parseGo strict rest frameLatest false
      | .ok (some obj) =>
        let p := recStep obj frameLatest
        (parseGo strict rest p.2.1 p.2.2).map fun out => p.1 :: out

/-- `DBCParser.parse` over a given line sequence, at the initial state
(`frame_latest = None`, `ignore_tabbed = False`). -/
def dbcParseLines (strict : Bool) (lines : List (List Char)) :
    Except ParseErr (List Record) :=
  parseGo strict lines none false

/--
`DBCParser(stream).parse(strict)` end to end: tokenize with the
stream-level `line_iter` at the source chunk size, then run the
per-line loop.  The generator is lazy, so a parse failure on an
already-yielded line surfaces before the tokenizer's own
`DBCSyntaxError` at the end of the stream.  (`none` = tokenizer fuel
exhausted; never happens at the fuel used.)
-/
def DBCParser_parse (strict : Bool) (text : List Char) :
    Option (Except ParseErr (List Record)) :=
  (line_iterStream CHUNK_SIZE text).map fun p =>
    match dbcParseLines strict p.1 with
    | .error e => .error e
    | .ok out => if p.2 then .error .dbcSyntax else .ok out

/-- One step of the latest-frame bookkeeping: a frame record replaces
the remembered frame, everything else keeps it. -/
def frameStep (acc : Option FrameRec) (r : Record) : Option FrameRec :=
  match r with
  | .frame f => some f
  | _ => acc

/-- The latest frame among the first `i` records - the value
`frame_latest` holds when record `i` is appended. -/
def lastFrameBefore (out : List Record) (i : Nat) : Option FrameRec :=
  (out.take i).foldl frameStep none

-- ------------------------------------------------------------------
-- The shared default push-back stack (`__init__(self, stream, stack=[])`)
-- ------------------------------------------------------------------

/--
Python evaluates a default argument once, when the `def` line runs, so
`StreamParser.__init__(self, stream, stack=[])` (parser.py line 33)
creates a single list object shared by every construction that omits
`stack`.  The heap of stack objects: the one default list, plus the
lists passed explicitly.
-/
structure PushbackHeap where
  defaultStack : List (List Char)
  ownedStacks : List (List (List Char))
  deriving DecidableEq, Repr

/-- A `StreamParser`/`DBCParser` instance reduced to what it aliases:
`none` = the shared default list, `some i` = the list passed
explicitly at construction `i`. -/
structure StreamParserObj where
  stackRef : Option Nat
  deriving DecidableEq, Repr

/-- Construction without an explicit `stack` argument: the instance
aliases the shared default list. -/
def StreamParser_new_default : StreamParserObj := ⟨none⟩

/-- Construction with an explicit `stack` argument: a fresh list. -/
def StreamParser_new_explicit (h : PushbackHeap)
    (init : List (List Char)) : PushbackHeap × StreamParserObj :=
  ({ h with ownedStacks := h.ownedStacks ++ [init] },
    ⟨some h.ownedStacks.length⟩)

/-- The list `self.stack` currently aliases. -/
def StreamParser_stack (h : PushbackHeap) (p : StreamParserObj) :
    List (List Char) :=
  match p.stackRef with
  | none => h.defaultStack
  | some i => h.ownedStacks.getD i []

/-- `StreamParser.push` (parser.py lines 52-53): `self.stack.append`. -/
def StreamParser_push (h : PushbackHeap) (p : StreamParserObj)
    (line : List Char) : PushbackHeap :=
  match p.stackRef with
  | none => { h with defaultStack := h.defaultStack ++ [line] }
  | some i =>
    { h with ownedStacks :=
        h.ownedStacks.set i (h.ownedStacks.getD i [] ++ [line]) }

/-- The heap before any construction: empty default list, no explicit
lists yet. -/
def initialHeap : PushbackHeap := ⟨[], []⟩

-- ------------------------------------------------------------------
-- Registration-order analysis of the attribute classes
-- ------------------------------------------------------------------

/-- The three attribute variants registered AFTER `GlobalAttribute` in
`DBC_LINE_CLASSES`; their classifiers run only when
`GlobalAttribute.from_line` returned `None`. -/
def isShadowedAttr : Record → Bool
  | .signalAttribute _ _ _ _ => true
  | .frameAttribute _ _ _ => true
  | .nodeAttribute _ _ _ => true
  | _ => false

-- ==================================================================
-- Theorems
-- ==================================================================

-- ------------------------------------------------------------------
-- The chunked tokenizer agrees with the character-level scan
-- ------------------------------------------------------------------

theorem findBreak_quote (cs : List Char) (st : Bool) :
    findBreak ('"' :: cs) st =
      ((findBreak cs (!st)).1, (findBreak cs (!st)).2.map (· + 1)) := by
  simp [findBreak]

theorem findBreak_nl_true (cs : List Char) :
    findBreak ('\n' :: cs) true =
      ((findBreak cs true).1, (findBreak cs true).2.map (· + 1)) := by
  simp [findBreak]

theorem findBreak_nl_false (cs : List Char) :
    findBreak ('\n' :: cs) false = (false, some 1) := by
  simp [findBreak]

theorem findBreak_other (c : Char) (cs : List Char) (st : Bool)
    (hc : c ≠ '"') (hn : c ≠ '\n') :
    findBreak (c :: cs) st =
      ((findBreak cs st).1, (findBreak cs st).2.map (· + 1)) := by
  simp [findBreak, hc, hn]

theorem scanLines_quote (rest : List Char) (st : Bool) (buf : List Char) :
    scanLines ('"' :: rest) st buf = scanLines rest (!st) (buf ++ ['"']) := by
  simp [scanLines]

theorem scanLines_nl_true (rest : List Char) (buf : List Char) :
    scanLines ('\n' :: rest) true buf = scanLines rest true (buf ++ ['\n']) := by
  simp [scanLines]

theorem scanLines_nl_false (rest : List Char) (buf : List Char) :
    scanLines ('\n' :: rest) false buf =
      ((buf ++ ['\n']) :: (scanLines rest false []).1,
        (scanLines rest false []).2) := by
  simp [scanLines]

theorem scanLines_other (c : Char) (rest : List Char) (st : Bool)
    (buf : List Char) (hc : c ≠ '"') (hn : c ≠ '\n') :
    scanLines (c :: rest) st buf = scanLines rest st (buf ++ [c]) := by
  cases st <;> simp [scanLines, hc, hn]

theorem findBreak_none_scan (u : List Char) :
    ∀ (st st2 : Bool), findBreak u st = (st2, none) →
      ∀ (v buf : List Char),
        scanLines (u ++ v) st buf = scanLines v st2 (buf ++ u) := by
  induction u with
  | nil =>
    intro st st2 h v buf
    simp only [findBreak, Prod.mk.injEq] at h
    simp [← h.1]
  | cons c cs ih =>
    intro st st2 h v buf
    by_cases hc : c = '"'
    · subst hc
      rcases hr : findBreak cs (!st) with ⟨a, b⟩
      rw [findBreak_quote, hr] at h
      rw [Prod.mk.injEq] at h
      rcases b with _ | e
      · calc scanLines ('"' :: cs ++ v) st buf
            = scanLines (cs ++ v) (!st) (buf ++ ['"']) :=
              scanLines_quote (cs ++ v) st buf
          _ = scanLines v st2 ((buf ++ ['"']) ++ cs) := by
              rw [← h.1]; exact ih (!st) a hr v (buf ++ ['"'])
          _ = scanLines v st2 (buf ++ '"' :: cs) := by simp
      · exact absurd h.2 (by simp)
    · by_cases hn : c = '\n'
      · subst hn
        cases st with
        | true =>
          rcases hr : findBreak cs true with ⟨a, b⟩
          rw [findBreak_nl_true, hr] at h
          rw [Prod.mk.injEq] at h
          rcases b with _ | e
          · calc scanLines ('\n' :: cs ++ v) true buf
                = scanLines (cs ++ v) true (buf ++ ['\n']) :=
                  scanLines_nl_true (cs ++ v) buf
              _ = scanLines v st2 ((buf ++ ['\n']) ++ cs) := by
                  rw [← h.1]; exact ih true a hr v (buf ++ ['\n'])
              _ = scanLines v st2 (buf ++ '\n' :: cs) := by simp
          · exact absurd h.2 (by simp)
        | false =>
          rw [findBreak_nl_false] at h
          exact absurd (congrArg Prod.snd h) (by simp)
      · rcases hr : findBreak cs st with ⟨a, b⟩
        rw [findBreak_other c cs st hc hn, hr] at h
        rw [Prod.mk.injEq] at h
        rcases b with _ | e
        · calc scanLines (c :: cs ++ v) st buf
              = scanLines (cs ++ v) st (buf ++ [c]) :=
                scanLines_other c (cs ++ v) st buf hc hn
            _ = scanLines v st2 ((buf ++ [c]) ++ cs) := by
                rw [← h.1]; exact ih st a hr v (buf ++ [c])
            _ = scanLines v st2 (buf ++ c :: cs) := by simp
        · exact absurd h.2 (by simp)

theorem findBreak_some_scan (u : List Char) :
    ∀ (st st2 : Bool) (e : Nat), findBreak u st = (st2, some e) →
      st2 = false ∧ 1 ≤ e ∧ e ≤ u.length ∧
      ∀ (v buf : List Char),
        scanLines (u ++ v) st buf =
          ((buf ++ u.take e) :: (scanLines (u.drop e ++ v) false []).1,
            (scanLines (u.drop e ++ v) false []).2) := by
  induction u with
  | nil =>
    intro st st2 e h
    simp only [findBreak, Prod.mk.injEq] at h
    exact absurd h.2 (by simp)
  | cons c cs ih =>
    intro st st2 e h
    by_cases hc : c = '"'
    · subst hc
      rcases hr : findBreak cs (!st) with ⟨a, b⟩
      rw [findBreak_quote, hr] at h
      rw [Prod.mk.injEq] at h
      rcases b with _ | e'
      · exact absurd h.2 (by simp)
      · obtain ⟨ha, he⟩ := h
        rw [Option.map_some', Option.some.injEq] at he
        obtain ⟨hst2, h1, h2, heq⟩ := ih (!st) a e' hr
        subst ha
        subst he
        refine ⟨hst2, by omega, by simp; omega, ?_⟩
        intro v buf
        calc scanLines ('"' :: cs ++ v) st buf
            = scanLines (cs ++ v) (!st) (buf ++ ['"']) :=
              scanLines_quote (cs ++ v) st buf
          _ = (((buf ++ ['"']) ++ cs.take e') ::
                (scanLines (cs.drop e' ++ v) false []).1,
              (scanLines (cs.drop e' ++ v) false []).2) := heq v (buf ++ ['"'])
          _ = ((buf ++ ('"' :: cs).take (e' + 1)) ::
                (scanLines (('"' :: cs).drop (e' + 1) ++ v) false []).1,
              (scanLines (('"' :: cs).drop (e' + 1) ++ v) false []).2) := by
              simp
    · by_cases hn : c = '\n'
      · subst hn
        cases st with
        | true =>
          rcases hr : findBreak cs true with ⟨a, b⟩
          rw [findBreak_nl_true, hr] at h
          rw [Prod.mk.injEq] at h
          rcases b with _ | e'
          · exact absurd h.2 (by simp)
          · obtain ⟨ha, he⟩ := h
            rw [Option.map_some', Option.some.injEq] at he
            obtain ⟨hst2, h1, h2, heq⟩ := ih true a e' hr
            subst ha
            subst he
            refine ⟨hst2, by omega, by simp; omega, ?_⟩
            intro v buf
            calc scanLines ('\n' :: cs ++ v) true buf
                = scanLines (cs ++ v) true (buf ++ ['\n']) :=
                  scanLines_nl_true (cs ++ v) buf
              _ = (((buf ++ ['\n']) ++ cs.take e') ::
                    (scanLines (cs.drop e' ++ v) false []).1,
                  (scanLines (cs.drop e' ++ v) false []).2) :=
                  heq v (buf ++ ['\n'])
              _ = ((buf ++ ('\n' :: cs).take (e' + 1)) ::
                    (scanLines (('\n' :: cs).drop (e' + 1) ++ v) false []).1,
                  (scanLines (('\n' :: cs).drop (e' + 1) ++ v) false []).2) := by
                  simp
        | false =>
          rw [findBreak_nl_false] at h
          rw [Prod.mk.injEq, Option.some.injEq] at h
          obtain ⟨ha, he⟩ := h
          subst he
          refine ⟨ha.symm, by omega, by simp, ?_⟩
          intro v buf
          exact scanLines_nl_false (cs ++ v) buf
      · rcases hr : findBreak cs st with ⟨a, b⟩
        rw [findBreak_other c cs st hc hn, hr] at h
        rw [Prod.mk.injEq] at h
        rcases b with _ | e'
        · exact absurd h.2 (by simp)
        · obtain ⟨ha, he⟩ := h
          rw [Option.map_some', Option.some.injEq] at he
          obtain ⟨hst2, h1, h2, heq⟩ := ih st a e' hr
          subst ha
          subst he
          refine ⟨hst2, by omega, by simp; omega, ?_⟩
          intro v buf
          calc scanLines (c :: cs ++ v) st buf
              = scanLines (cs ++ v) st (buf ++ [c]) :=
                scanLines_other c (cs ++ v) st buf hc hn
            _ = (((buf ++ [c]) ++ cs.take e') ::
                  (scanLines (cs.drop e' ++ v) false []).1,
                (scanLines (cs.drop e' ++ v) false []).2) := heq v (buf ++ [c])
            _ = ((buf ++ (c :: cs).take (e' + 1)) ::
                  (scanLines ((c :: cs).drop (e' + 1) ++ v) false []).1,
                (scanLines ((c :: cs).drop (e' + 1) ++ v) false []).2) := by
                simp

theorem line_iter_aux_nil (csize : Nat) (f : Nat) (s : Strm) (st : Bool)
    (hf : 1 ≤ f) (h : s.text.drop s.pos = []) :
    line_iter_aux csize f s [] st = some ([], false) := by
  cases f with
  | zero => omega
  | succ f => simp [line_iter_aux, sread, h]

theorem line_iter_aux_eq (csize : Nat) (hc : 1 ≤ csize) :
    ∀ (fuel : Nat) (s : Strm) (line : List Char) (st : Bool),
      s.text.length - s.pos + 2 ≤ fuel →
      line_iter_aux csize fuel s line st =
        some (scanLines (s.text.drop s.pos) st line) := by
  intro fuel
  induction fuel with
  | zero => intro s line st h; omega
  | succ fuel ih =>
    intro s line st h
    rcases s with ⟨text, pos⟩
    simp only [Strm.mk.injEq] at *
    by_cases hch : (text.drop pos).take csize = []
    · have hdrop : text.drop pos = [] := by
        rcases List.take_eq_nil_iff.mp hch with h0 | h0
        · omega
        · exact h0
      by_cases hline : line = []
      · subst hline
        simp [line_iter_aux, sread, hch, hdrop, scanLines]
      · cases st with
        | true => simp [line_iter_aux, sread, hch, hdrop, scanLines, hline]
        | false =>
          have hrec := line_iter_aux_nil csize fuel ⟨text, pos⟩ false
            (by omega) (by simpa using hdrop)
          simp [line_iter_aux, sread, hch, hdrop, scanLines, hline, hrec]
    · have hlen1 : 1 ≤ ((text.drop pos).take csize).length := by
        rcases hne : (text.drop pos).take csize with _ | ⟨a, b⟩
        · exact absurd hne hch
        · simp
      have hlenle : ((text.drop pos).take csize).length ≤
          text.length - pos := by
        calc ((text.drop pos).take csize).length ≤ (text.drop pos).length :=
              by simp
          _ = text.length - pos := by simp
      have hposlt : pos < text.length := by
        by_contra hcon
        have : text.drop pos = [] := List.drop_eq_nil_iff.mpr (by omega)
        exact hch (by simp [this])
      have htakech : (text.drop pos).take ((text.drop pos).take csize).length
          = (text.drop pos).take csize := by
        rw [List.length_take]
        rcases le_total csize (text.drop pos).length with hle | hle
        · rw [Nat.min_eq_left hle]
        · rw [Nat.min_eq_right hle, List.take_of_length_le hle,
            List.take_of_length_le le_rfl]
      have hsplit : text.drop pos =
          (text.drop pos).take csize ++
            text.drop (pos + ((text.drop pos).take csize).length) := by
        conv_lhs => rw [← List.take_append_drop
          ((text.drop pos).take csize).length (text.drop pos)]
        rw [htakech, List.drop_drop]
      rcases hfb : findBreak ((text.drop pos).take csize) st with ⟨st2, ob⟩
      rcases ob with _ | e
      · -- no newline found in this chunk: keep reading
        have hih := ih ⟨text, pos + ((text.drop pos).take csize).length⟩
          (line ++ (text.drop pos).take csize) st2 (by simp; omega)
        simp only at hih
        conv_rhs => rw [hsplit]
        rw [findBreak_none_scan _ st st2 hfb _ line]
        simp only [line_iter_aux, sread, hch, if_neg hch]
        rw [hfb]
        simpa using hih
      · -- the chunk holds the terminating newline at offset `e`
        obtain ⟨hst2, he1, hele, heq⟩ :=
          findBreak_some_scan ((text.drop pos).take csize) st st2 e hfb
        subst hst2
        have harith : (line ++ (text.drop pos).take csize).length -
            (((text.drop pos).take csize).length - e) = line.length + e := by
          simp only [List.length_append]
          omega
        have htk : (line ++ (text.drop pos).take csize).take
            (line.length + e) = line ++ ((text.drop pos).take csize).take e :=
          List.take_append e
        have hne2 : line ++ ((text.drop pos).take csize).take e ≠ [] := by
          intro hcon
          have h2 := List.append_eq_nil.mp hcon
          rcases List.take_eq_nil_iff.mp h2.2 with h0 | h0
          · omega
          · exact hch h0
        have hpos2 : pos + ((text.drop pos).take csize).length -
            (((text.drop pos).take csize).length - e) = pos + e := by omega
        have hih := ih ⟨text, pos + e⟩ [] false (by simp; omega)
        simp only at hih
        have hdr : ((text.drop pos).take csize).drop e ++
            text.drop (pos + ((text.drop pos).take csize).length) =
            text.drop (pos + e) := by
          conv_rhs => rw [← List.drop_drop, hsplit]
          rw [List.drop_append_of_le_length hele]
        conv_rhs => rw [hsplit]
        rw [heq _ line]
        rw [hdr]
        simp only [line_iter_aux, sread, if_neg hch]
        rw [hfb]
        simp only [harith, htk, hpos2, if_neg hne2]
        rw [hih]
        simp

/-- At any positive chunk size, the stream tokenizer computes exactly
the character-level scan (in particular the fuel never runs out). -/
theorem line_iterStream_eq_scan (csize : Nat) (hc : 1 ≤ csize)
    (text : List Char) :
    line_iterStream csize text = some (scanLines text false []) := by
  unfold line_iterStream
  have h := line_iter_aux_eq csize hc (text.length + 2) ⟨text, 0⟩ [] false
    (by simp)
  simpa using h

-- ------------------------------------------------------------------
-- Structure of the character-level scan
-- ------------------------------------------------------------------

/-- Concatenating the yielded lines recovers the input: all of it on a
clean finish, all but a nonempty dropped tail on an unterminated
string. -/
theorem scanLines_join (text : List Char) :
    ∀ (st : Bool) (buf : List Char),
      ((scanLines text st buf).2 = false →
        (scanLines text st buf).1.flatten = buf ++ text) ∧
      ((scanLines text st buf).2 = true →
        ∃ part, part ≠ [] ∧
          buf ++ text = (scanLines text st buf).1.flatten ++ part) := by
  induction text with
  | nil =>
    intro st buf
    by_cases hb : buf = []
    · subst hb
      simp [scanLines]
    · cases st with
      | true =>
        refine ⟨?_, ?_⟩
        · intro hfalse
          simp [scanLines, hb] at hfalse
        · intro _
          exact ⟨buf, hb, by simp [scanLines, hb]⟩
      | false =>
        refine ⟨?_, ?_⟩
        · intro _
          simp [scanLines, hb]
        · intro htrue
          simp [scanLines, hb] at htrue
  | cons c cs ih =>
    intro st buf
    by_cases hc : c = '"'
    · subst hc
      rw [scanLines_quote]
      have := ih (!st) (buf ++ ['"'])
      simpa using this
    · by_cases hn : c = '\n'
      · subst hn
        cases st with
        | true =>
          rw [scanLines_nl_true]
          have := ih true (buf ++ ['\n'])
          simpa using this
        | false =>
          rw [scanLines_nl_false]
          have := ih false []
          refine ⟨?_, ?_⟩
          · intro hfalse
            simp only at hfalse
            have h1 := this.1 hfalse
            simp only [List.flatten_cons, h1]
            simp
          · intro htrue
            simp only at htrue
            obtain ⟨part, hp, hpart⟩ := this.2 htrue
            refine ⟨part, hp, ?_⟩
            calc buf ++ '\n' :: cs = (buf ++ ['\n']) ++ ([] ++ cs) := by simp
              _ = (buf ++ ['\n']) ++
                  ((scanLines cs false []).1.flatten ++ part) := by
                  rw [hpart]
              _ = ((buf ++ ['\n']) ::
                    (scanLines cs false []).1).flatten ++ part := by simp
      · rw [scanLines_other c cs st buf hc hn]
        have := ih st (buf ++ [c])
        simpa using this

/-- If the quote parity of the remaining text closes every string, the
scan does not raise. -/
theorem scanLines_err_endState (text : List Char) :
    ∀ (st : Bool) (buf : List Char),
      (scanLines text st buf).2 = true → endState text st = true := by
  induction text with
  | nil =>
    intro st buf h
    by_cases hb : buf = []
    · simp [scanLines, hb] at h
    · cases st with
      | true => simp [endState]
      | false => simp [scanLines, hb] at h
  | cons c cs ih =>
    intro st buf h
    by_cases hc : c = '"'
    · subst hc
      rw [scanLines_quote] at h
      simpa [endState] using ih (!st) (buf ++ ['"']) h
    · by_cases hn : c = '\n'
      · subst hn
        cases st with
        | true =>
          rw [scanLines_nl_true] at h
          simpa [endState, hc] using ih true (buf ++ ['\n']) h
        | false =>
          rw [scanLines_nl_false] at h
          simp only at h
          simpa [endState, hc] using ih false [] h
      · rw [scanLines_other c cs st buf hc hn] at h
        simpa [endState, hc] using ih st (buf ++ [c]) h

/-- Conversely: open quote parity at EOF raises, as long as the
buffer is nonempty or we start outside a string (the Python scan can
never reach EOF inside a string with an empty buffer). -/
theorem scanLines_endState_err (text : List Char) :
    ∀ (st : Bool) (buf : List Char), endState text st = true →
      (buf ≠ [] ∨ st = false) → (scanLines text st buf).2 = true := by
  induction text with
  | nil =>
    intro st buf hend hside
    simp only [endState] at hend
    subst hend
    rcases hside with hb | hfalse
    · simp [scanLines, hb]
    · cases hfalse
  | cons c cs ih =>
    intro st buf hend hside
    by_cases hc : c = '"'
    · subst hc
      rw [scanLines_quote]
      refine ih (!st) (buf ++ ['"']) ?_ (Or.inl (by simp))
      simpa [endState] using hend
    · by_cases hn : c = '\n'
      · subst hn
        cases st with
        | true =>
          rw [scanLines_nl_true]
          refine ih true (buf ++ ['\n']) ?_ (Or.inl (by simp))
          simpa [endState, hc] using hend
        | false =>
          rw [scanLines_nl_false]
          simp only
          refine ih false [] ?_ (Or.inr rfl)
          simpa [endState, hc] using hend
      · rw [scanLines_other c cs st buf hc hn]
        refine ih st (buf ++ [c]) ?_ (Or.inl (by simp))
        simpa [endState, hc] using hend

/-- Quote-free text: the scan is exactly the keep-ends newline split,
with the pending buffer glued onto the first piece, and it never
raises. -/
theorem scanLines_noquote (text : List Char) :
    (∀ c ∈ text, c ≠ '"') → ∀ buf : List Char,
      scanLines text false buf = (glueBuf buf (splitKeepEnds text), false) := by
  induction text with
  | nil =>
    intro _ buf
    by_cases hb : buf = []
    · simp [scanLines, splitKeepEnds, glueBuf, hb]
    · simp [scanLines, splitKeepEnds, glueBuf, hb]
  | cons c cs ih =>
    intro hq buf
    have hc : c ≠ '"' := hq c (by simp)
    have hqs : ∀ x ∈ cs, x ≠ '"' := fun x hx => hq x (by simp [hx])
    by_cases hn : c = '\n'
    · subst hn
      rw [scanLines_nl_false, ih hqs []]
      have hglue : glueBuf [] (splitKeepEnds cs) = splitKeepEnds cs := by
        cases hsp : splitKeepEnds cs with
        | nil => simp [glueBuf]
        | cons p ps => simp [glueBuf]
      rw [hglue]
      simp [splitKeepEnds, glueBuf]
    · rw [scanLines_other c cs false buf hc hn, ih hqs (buf ++ [c])]
      cases hsp : splitKeepEnds cs with
      | nil => simp [splitKeepEnds, hn, hsp, glueBuf]
      | cons p ps => simp [splitKeepEnds, hn, hsp, glueBuf]


theorem glueBuf_nil (ps : List (List Char)) : glueBuf [] ps = ps := by
  cases ps with
  | nil => simp [glueBuf]
  | cons p rest => simp [glueBuf]

-- ------------------------------------------------------------------
-- Claim C1
-- ------------------------------------------------------------------

/--
C1, counterexample: the claim says the yielded lines are the text split
on newline with the trailing newline stripped from each piece.  On the
quote-free input `a\n` the tokenizer yields the single line `a\n` - the
terminating newline is kept (`line = line[:len(line) - chunk_excess]`
cuts at `m.end()`, one past the newline), and the claimed split (under
either reading of the sentence) disagrees with it.
-/
theorem C1_counterexample :
    line_iterStream 10 ['a', '\n'] = some ([['a', '\n']], false) ∧
    [['a', '\n']] ≠ specSplitStrip ['a', '\n'] ∧
    [['a', '\n']] ≠ [['a']] := by
  refine ⟨by decide, by decide, by decide⟩

/--
C1, amended: for every input stream whose text contains no double-quote
character and every positive chunk size, `StreamParser.line_iter`
yields the text cut after every newline with each piece keeping its
terminating newline (the final piece, if the text does not end in a
newline, has none), and no error is raised.
-/
theorem C1_quotefree_keepends (csize : Nat) (text : List Char)
    (hc : 1 ≤ csize) (hq : ∀ c ∈ text, c ≠ '"') :
    line_iterStream csize text = some (splitKeepEnds text, false) := by
  rw [line_iterStream_eq_scan csize hc, scanLines_noquote text hq [],
    glueBuf_nil]

/-- C1 witness: the amended statement evaluated on `ab\ncd` at the
source chunk size. -/
theorem C1_witness :
    line_iterStream 10 ['a', 'b', '\n', 'c', 'd'] =
      some ([['a', 'b', '\n'], ['c', 'd']], false) := by
  have h := C1_quotefree_keepends 10 ['a', 'b', '\n', 'c', 'd']
    (by decide) (by decide)
  simpa using h

-- ------------------------------------------------------------------
-- Claim C5
-- ------------------------------------------------------------------

/--
C5: a literal newline inside a quoted string never terminates a logical
line: whenever the in-string flag is set the scan appends the newline
to the current line instead of splitting, and consequently the input
`CM_ SG_ 1 X "a\nb";` is yielded as exactly one logical line.
-/
theorem C5_quoted_newline_one_line :
    (∀ (rest buf : List Char),
      scanLines ('\n' :: rest) true buf =
        scanLines rest true (buf ++ ['\n'])) ∧
    line_iterStream 10 (("CM_ SG_ 1 X \"a\nb\";").toList) =
      some ([("CM_ SG_ 1 X \"a\nb\";").toList], false) := by
  refine ⟨fun rest buf => scanLines_nl_true rest buf, by decide⟩

-- ------------------------------------------------------------------
-- Claim C6
-- ------------------------------------------------------------------

/--
C6: the chunk size never affects the outcome of `line_iter`: for every
input text, every initial push-back stack and every two positive chunk
sizes, the yielded line sequences and the raised-or-not outcome are
identical.
-/
theorem C6_chunk_size_independent (stack : List (List Char))
    (text : List Char) (c1 c2 : Nat) (h1 : 1 ≤ c1) (h2 : 1 ≤ c2) :
    line_iterFull stack c1 text = line_iterFull stack c2 text := by
  unfold line_iterFull
  rw [line_iterStream_eq_scan c1 h1, line_iterStream_eq_scan c2 h2]

/-- C6 witness: chunk sizes 1 and 4096 agree on an input that mixes
quoted newlines and plain lines (and 10 is covered by the second
conjunct). -/
theorem C6_witness :
    line_iterFull [] 1 (("a \"b\nc\" d\ne").toList) =
      line_iterFull [] 4096 (("a \"b\nc\" d\ne").toList) ∧
    line_iterFull [] 10 (("a \"b\nc\" d\ne").toList) =
      line_iterFull [] 4096 (("a \"b\nc\" d\ne").toList) :=
  ⟨C6_chunk_size_independent [] (("a \"b\nc\" d\ne").toList) 1 4096
      (by decide) (by decide),
    C6_chunk_size_independent [] (("a \"b\nc\" d\ne").toList) 10 4096
      (by decide) (by decide)⟩

-- ------------------------------------------------------------------
-- Claim C7
-- ------------------------------------------------------------------

/--
C7: if the stream ends while the in-string flag is set, `line_iter`
raises `DBCSyntaxError` and the pending partial line (a nonempty tail
of the text) is never yielded; if the stream ends with the flag off,
everything is yielded - in particular a final line with no trailing
newline - and no error is raised; the empty stream yields zero lines.
-/
theorem C7_unterminated_string (csize : Nat) (text : List Char)
    (hc : 1 ≤ csize) :
    (endState text false = true →
      ∃ L rest, line_iterStream csize text = some (L, true) ∧
        rest ≠ [] ∧ L.flatten ++ rest = text) ∧
    (endState text false = false →
      ∃ L, line_iterStream csize text = some (L, false) ∧
        L.flatten = text) ∧
    line_iterStream csize [] = some ([], false) := by
  refine ⟨?_, ?_, ?_⟩
  · intro hend
    have herr : (scanLines text false []).2 = true :=
      scanLines_endState_err text false [] hend (Or.inr rfl)
    obtain ⟨part, hp, hpart⟩ := (scanLines_join text false []).2 herr
    refine ⟨(scanLines text false []).1, part, ?_, hp, ?_⟩
    · rw [line_iterStream_eq_scan csize hc]
      have hpair : scanLines text false [] =
          ((scanLines text false []).1, true) := by
        conv_lhs => rw [← Prod.mk.eta (p := scanLines text false [])]
        rw [herr]
      rw [hpair]
    · simpa using hpart.symm
  · intro hend
    have herr : (scanLines text false []).2 = false := by
      cases hb : (scanLines text false []).2 with
      | false => rfl
      | true =>
        exact absurd (scanLines_err_endState text false [] hb)
          (by simp [hend])
    have hj := (scanLines_join text false []).1 herr
    refine ⟨(scanLines text false []).1, ?_, by simpa using hj⟩
    rw [line_iterStream_eq_scan csize hc]
    have hpair : scanLines text false [] =
        ((scanLines text false []).1, false) := by
      conv_lhs => rw [← Prod.mk.eta (p := scanLines text false [])]
      rw [herr]
    rw [hpair]
  · rw [line_iterStream_eq_scan csize hc]
    simp [scanLines]

/-- C7 witness: `foo "bar` raises with nothing yielded; `abc` (no
trailing newline) is yielded whole. -/
theorem C7_witness :
    (∃ L rest, line_iterStream 10 (("foo \"bar").toList) = some (L, true) ∧
      rest ≠ [] ∧ L.flatten ++ rest = ("foo \"bar").toList) ∧
    (∃ L, line_iterStream 10 (("abc").toList) = some (L, false) ∧
      L.flatten = ("abc").toList) :=
  ⟨(C7_unterminated_string 10 (("foo \"bar").toList) (by decide)).1
      (by decide),
    ((C7_unterminated_string 10 (("abc").toList) (by decide)).2).1
      (by decide)⟩

-- ------------------------------------------------------------------
-- Claim C3
-- ------------------------------------------------------------------

/--
C3, counterexample: the claim says a literal of the form `0x` plus hex
digits returns the base-16 integer, giving `0x10 = 16`.  The float
entry of `_t_flex_map` is anchored only at `$`, so on `0x10` its
`re.search` already matches the suffix `10` and the value comes back as
the float `10.0`, never reaching the hex matcher.
-/
theorem C3_counterexample :
    _t_flexible_val (("0x10").toList) = FlexVal.float 10 ∧
    FlexVal.float 10 ≠ FlexVal.int 16 := by
  refine ⟨by decide, by decide⟩

/--
C3, amended: `_t_flexible_val` tries the matchers in the fixed order
plain decimal integer, floating point, hex, binary, quoted string, and
returns the raw text unchanged when none matches (it is a total
function - it never raises).  Because the floating-point pattern is
anchored only at the end of the value, a `0x` or `0b` literal whose
last character is a decimal digit is captured by the float matcher as
the float of its trailing float-shaped suffix (`0x10` and `0b10` both
give `10.0`); only a hex literal ending in a letter digit reaches the
hex matcher (`0xff` gives `255`), and no well-formed binary literal
ever reaches the binary matcher.
-/
theorem C3_flexible_val_order :
    _t_flexible_val (("123").toList) = FlexVal.int 123 ∧
    _t_flexible_val (("-4.5e+5").toList) = FlexVal.float (-450000) ∧
    _t_flexible_val (("0x10").toList) = FlexVal.float 10 ∧
    _t_flexible_val (("0b10").toList) = FlexVal.float 10 ∧
    _t_flexible_val (("0xff").toList) = FlexVal.int 255 ∧
    _t_flexible_val (("\"hi\"").toList) = FlexVal.str (("hi").toList) ∧
    (∀ s : List Char, intLitVal s = none → findFloatVal s = none →
      hexLitVal s = none → binLitVal s = none → strLitVal s = none →
      _t_flexible_val s = FlexVal.raw s) := by
  refine ⟨by decide, by decide, by decide, by decide, by decide, by decide,
    ?_⟩
  intro s h1 h2 h3 h4 h5
  simp [_t_flexible_val, h1, h2, h3, h4, h5]

/-- C3 witness: the raw-fallback clause evaluated on the unmatched
value `foo bar`. -/
theorem C3_witness :
    _t_flexible_val (("foo bar").toList) = FlexVal.raw (("foo bar").toList) :=
  C3_flexible_val_order.2.2.2.2.2.2 (("foo bar").toList) (by decide)
    (by decide) (by decide) (by decide) (by decide)

-- ------------------------------------------------------------------
-- Parse-loop structure
-- ------------------------------------------------------------------

theorem except_map_ok {α β γ : Type} (g : β → γ) (e : Except α β) (out : γ)
    (h : e.map g = .ok out) : ∃ b, e = .ok b ∧ out = g b := by
  cases e with
  | error a => simp [Except.map] at h
  | ok b =>
    simp [Except.map] at h
    exact ⟨b, rfl, h.symm⟩

theorem except_map_error {α β γ : Type} (g : β → γ) (e : Except α β)
    (err : α) (h : e.map g = .error err) : e = .error err := by
  cases e with
  | error a => simpa [Except.map] using h
  | ok b => simp [Except.map] at h

/-- The fold that tracks the latest frame absorbs exactly the record a
step appends: the appended record updates the accumulator to the new
`frame_latest`. -/
theorem recStep_fold (obj : Record) (fl : Option FrameRec) :
    frameStep fl (recStep obj fl).1 = (recStep obj fl).2.1 := by
  cases obj <;> rfl

/-- A signal appended by `recStep` carries exactly the `frame_latest`
in force when it was processed. -/
theorem recStep_signal_frame (obj : Record) (fl : Option FrameRec)
    (s : SignalRec) (h : (recStep obj fl).1 = .signal s) : s.frame = fl := by
  cases obj
  case signal s0 =>
    simp only [recStep, Record.signal.injEq] at h
    rw [← h]
  all_goals simp [recStep] at h

/--
Hoisted invariant of the per-line loop: at any state, every signal in
the produced list carries the latest frame seen among the records
before it (starting from the incoming `frame_latest`).
-/
theorem parseGo_frame_link (strict : Bool) :
    ∀ (lines : List (List Char)) (fl : Option FrameRec) (it : Bool)
      (out : List Record), parseGo strict lines fl it = .ok out →
      ∀ i s, out.get? i = some (.signal s) →
        s.frame = (out.take i).foldl frameStep fl := by
  intro lines
  induction lines with
  | nil =>
    intro fl it out h i s hs
    simp only [parseGo] at h
    cases h
    simp at hs
  | cons line rest ih =>
    intro fl it out h i s hs
    simp only [parseGo] at h
    by_cases hblank : rstrip line = []
    · rw [if_pos hblank] at h
      exact ih fl it out h i s hs
    · rw [if_neg hblank] at h
      by_cases htab : (it && startsWS line) = true
      · rw [if_pos htab] at h
        exact ih fl true out h i s hs
      · rw [if_neg htab] at h
        rcases hcl : dbcClassify line with e | ro
        · rw [hcl] at h
          cases h
        · rw [hcl] at h
          rcases ro with _ | obj
        -- unmatched line: strict raises, non-strict skips
          · cases strict with
            | true =>
              rw [if_pos rfl] at h
              cases h
            | false =>
              rw [if_neg (by simp)] at h
              exact ih fl false out h i s hs
          · obtain ⟨out', hrec, hout⟩ := except_map_ok _ _ _ h
            subst hout
            rcases i with _ | i
            · simp only [List.get?_cons_zero, Option.some.injEq] at hs
              have := recStep_signal_frame obj fl s hs
              simpa using this
            · have hih := ih (recStep obj fl).2.1 (recStep obj fl).2.2 out'
                hrec i s (by simpa using hs)
              calc s.frame
                  = (out'.take i).foldl frameStep (recStep obj fl).2.1 := hih
                _ = (((recStep obj fl).1 :: out').take (i + 1)).foldl
                      frameStep fl := by
                    rw [List.take_succ_cons, List.foldl_cons, recStep_fold]

/-- If no frame occurs in a record list, the latest-frame fold keeps
its seed. -/
theorem foldl_no_frame :
    ∀ (l : List Record), (∀ j f, l.get? j ≠ some (.frame f)) →
      l.foldl frameStep (none : Option FrameRec) = none := by
  intro l
  induction l with
  | nil => intro _; rfl
  | cons r l ih =>
    intro h
    have h0 : ∀ f, r ≠ .frame f := by
      intro f hf
      exact h 0 f (by simp [hf])
    have hstep : frameStep (none : Option FrameRec) r = none := by
      cases r
      case frame f => exact absurd rfl (h0 f)
      all_goals rfl
    rw [List.foldl_cons, hstep]
    exact ih fun j f => h (j + 1) f

-- ------------------------------------------------------------------
-- Claim C4
-- ------------------------------------------------------------------

/-- A latest-frame fold only ever reports a frame of the list or its
seed. -/
theorem foldl_frame_mem :
    ∀ (l : List Record) (a : Option FrameRec) (f : FrameRec),
      l.foldl frameStep a = some f →
      (∃ j, l.get? j = some (.frame f)) ∨ a = some f := by
  intro l
  induction l with
  | nil =>
    intro a f h
    exact Or.inr h
  | cons r l ih =>
    intro a f h
    rw [List.foldl_cons] at h
    rcases ih _ f h with ⟨j, hj⟩ | hstep
    · exact Or.inl ⟨j + 1, by simpa using hj⟩
    · cases r
      case frame f0 =>
        simp only [frameStep, Option.some.injEq] at hstep
        exact Or.inl ⟨0, by simp [hstep]⟩
      all_goals exact Or.inr hstep

/-- A set `lastFrameBefore` link names a frame strictly before `i`. -/
theorem lastFrameBefore_mem (out : List Record) (i : Nat) (f : FrameRec)
    (h : lastFrameBefore out i = some f) :
    ∃ j, j < i ∧ out.get? j = some (.frame f) := by
  rcases foldl_frame_mem (out.take i) none f h with ⟨j, hj⟩ | habs
  · have hlt : j < (out.take i).length := by
      by_contra hge
      rw [List.get?_eq_none.mpr (by omega)] at hj
      cases hj
    have hjin : j < i := by
      have := List.length_take_le i out
      omega
    refine ⟨j, hjin, ?_⟩
    rw [← List.get?_take hjin]
    exact hj
  · cases habs

/--
C4: in every record list produced by the parse loop, each signal is
linked to the most recently preceding frame of the list (`none` when no
frame precedes it), and a set link always points at a frame that
appears strictly earlier in the same output.  The last clause restates
the invariant for the full `DBCParser.parse` pipeline over a raw
stream.
-/
theorem C4_signal_frame_link :
    (∀ (strict : Bool) (lines : List (List Char)) (out : List Record),
      dbcParseLines strict lines = .ok out →
      (∀ i s, out.get? i = some (.signal s) →
        s.frame = lastFrameBefore out i) ∧
      (∀ i s f, out.get? i = some (.signal s) → s.frame = some f →
        ∃ j, j < i ∧ out.get? j = some (.frame f))) ∧
    (∀ (strict : Bool) (text : List Char) (out : List Record),
      DBCParser_parse strict text = some (.ok out) →
      ∀ i s, out.get? i = some (.signal s) →
        s.frame = lastFrameBefore out i) := by
  have hmain : ∀ (strict : Bool) (lines : List (List Char))
      (out : List Record), dbcParseLines strict lines = .ok out →
      ∀ i s, out.get? i = some (.signal s) →
        s.frame = lastFrameBefore out i :=
    fun strict lines out h i s hs =>
      parseGo_frame_link strict lines none false out h i s hs
  refine ⟨fun strict lines out h => ⟨hmain strict lines out h, ?_⟩, ?_⟩
  · intro i s f hs hf
    have h1 := hmain strict lines out h i s hs
    rw [hf] at h1
    exact lastFrameBefore_mem out i f h1.symm
  · intro strict text out h
    simp only [DBCParser_parse, Option.map_eq_some'] at h
    obtain ⟨⟨ls, err⟩, hstream, hpipe⟩ := h
    rcases hpl : dbcParseLines strict ls with e | out'
    · rw [hpl] at hpipe
      simp at hpipe
    · rw [hpl] at hpipe
      simp only at hpipe
      rcases err with _ | _
      · simp only [if_neg (by simp : ¬(false = true))] at hpipe
        cases hpipe
        exact hmain strict ls out hpl
      · simp at hpipe

/-- C4 witness: a `BO_` line followed by two `SG_` lines links both
signals to that one frame - the invariant instantiated at both signal
positions of the concrete output. -/
theorem C4_witness :
    (SignalRec.mk ['A'] none 0 8 true false 1 0 0 1 ['u'] [['R']]
        (some ⟨1, ['N'], 8, some ['T']⟩)).frame =
      lastFrameBefore
        [Record.frame ⟨1, ['N'], 8, some ['T']⟩,
          Record.signal ⟨['A'], none, 0, 8, true, false, 1, 0, 0, 1, ['u'],
            [['R']], some ⟨1, ['N'], 8, some ['T']⟩⟩,
          Record.signal ⟨['B'], none, 8, 8, true, false, 1, 0, 0, 1, ['u'],
            [['R']], some ⟨1, ['N'], 8, some ['T']⟩⟩] 1 ∧
    (SignalRec.mk ['B'] none 8 8 true false 1 0 0 1 ['u'] [['R']]
        (some ⟨1, ['N'], 8, some ['T']⟩)).frame =
      lastFrameBefore
        [Record.frame ⟨1, ['N'], 8, some ['T']⟩,
          Record.signal ⟨['A'], none, 0, 8, true, false, 1, 0, 0, 1, ['u'],
            [['R']], some ⟨1, ['N'], 8, some ['T']⟩⟩,
          Record.signal ⟨['B'], none, 8, 8, true, false, 1, 0, 0, 1, ['u'],
            [['R']], some ⟨1, ['N'], 8, some ['T']⟩⟩] 2 := by
  have h := (C4_signal_frame_link.1 false
    [("BO_ 1 N: 8 T").toList,
      ("SG_ A : 0|8@1+ (1,0) [0|1] \"u\" R").toList,
      ("SG_ B : 8|8@1+ (1,0) [0|1] \"u\" R").toList]
    [Record.frame ⟨1, ['N'], 8, some ['T']⟩,
      Record.signal ⟨['A'], none, 0, 8, true, false, 1, 0, 0, 1, ['u'],
        [['R']], some ⟨1, ['N'], 8, some ['T']⟩⟩,
      Record.signal ⟨['B'], none, 8, 8, true, false, 1, 0, 0, 1, ['u'],
        [['R']], some ⟨1, ['N'], 8, some ['T']⟩⟩] (by decide)).1
  exact ⟨h 1 _ (by decide), h 2 _ (by decide)⟩

-- ------------------------------------------------------------------
-- Claim C10
-- ------------------------------------------------------------------

/--
C10: a signal line classified while `frame_latest` is still unset does
not make the parse raise: the signal record's frame link is `None`,
permanently, and the record still lands in the output at its file-order
position.  The first clause is the general statement over any parse
output (a signal preceded by no frame is unlinked); the second runs the
whole strict pipeline on a stream whose `SG_` line precedes its `BO_`
line.
-/
theorem C10_signal_before_frame :
    (∀ (strict : Bool) (lines : List (List Char)) (out : List Record),
      dbcParseLines strict lines = .ok out →
      ∀ i s, out.get? i = some (.signal s) →
        (∀ j f, j < i → out.get? j ≠ some (.frame f)) →
        s.frame = none) ∧
    DBCParser_parse true
        (("SG_ A : 0|8@1+ (1,0) [0|1] \"u\" R\nBO_ 1 N: 8 T").toList) =
      some (.ok [Record.signal ⟨['A'], none, 0, 8, true, false, 1, 0, 0, 1,
          ['u'], [['R']], none⟩,
        Record.frame ⟨1, ['N'], 8, some ['T']⟩]) := by
  constructor
  · intro strict lines out h i s hs hnof
    have h1 := parseGo_frame_link strict lines none false out h i s hs
    rw [h1]
    apply foldl_no_frame
    intro j f hcon
    have hjlen : j < (out.take i).length := by
      by_contra hge
      rw [List.get?_eq_none.mpr (by omega)] at hcon
      cases hcon
    have hji : j < i := by
      have := List.length_take_le i out
      omega
    rw [List.get?_take hji] at hcon
    exact hnof j f hji hcon
  · decide

/-- C10 witness: the general clause applied to the one-line strict
parse of a lone `SG_` line - the signal is accepted and left
unlinked. -/
theorem C10_witness :
    dbcParseLines true [("SG_ A : 0|8@1+ (1,0) [0|1] \"u\" R").toList] =
      .ok [Record.signal ⟨['A'], none, 0, 8, true, false, 1, 0, 0, 1,
        ['u'], [['R']], none⟩] ∧
    (SignalRec.mk ['A'] none 0 8 true false 1 0 0 1 ['u'] [['R']]
      none).frame = none := by
  refine ⟨by decide, ?_⟩
  exact C10_signal_before_frame.1 true
    [("SG_ A : 0|8@1+ (1,0) [0|1] \"u\" R").toList]
    [Record.signal ⟨['A'], none, 0, 8, true, false, 1, 0, 0, 1, ['u'],
      [['R']], none⟩] (by decide) 0 _ (by decide)
    (fun j f hj => absurd hj (by omega))

-- ------------------------------------------------------------------
-- Strict versus non-strict (claim C8)
-- ------------------------------------------------------------------

/-- Unfolding: a blank line is skipped with the state unchanged. -/
theorem parseGo_cons_blank (strict : Bool) (line : List Char)
    (rest : List (List Char)) (fl : Option FrameRec) (it : Bool)
    (hblank : rstrip line = []) :
    parseGo strict (line :: rest) fl it = parseGo strict rest fl it := by
  simp only [parseGo]
  rw [if_pos hblank]

/-- Unfolding: a whitespace-led line inside a tabbed block is
skipped. -/
theorem parseGo_cons_tab (strict : Bool) (line : List Char)
    (rest : List (List Char)) (fl : Option FrameRec) (it : Bool)
    (hblank : rstrip line ≠ []) (htab : (it && startsWS line) = true) :
    parseGo strict (line :: rest) fl it = parseGo strict rest fl true := by
  simp only [parseGo]
  rw [if_neg hblank, if_pos htab]

/-- Unfolding: a coercion failure aborts the parse. -/
theorem parseGo_cons_err (strict : Bool) (line : List Char)
    (rest : List (List Char)) (fl : Option FrameRec) (it : Bool)
    (hblank : rstrip line ≠ []) (htab : ¬(it && startsWS line) = true)
    (e0 : Unit) (hcl : dbcClassify line = .error e0) :
    parseGo strict (line :: rest) fl it = .error .coercion := by
  simp only [parseGo]
  rw [if_neg hblank, if_neg htab, hcl]

/-- Unfolding: an unmatched line raises in strict mode and is skipped
otherwise. -/
theorem parseGo_cons_none (strict : Bool) (line : List Char)
    (rest : List (List Char)) (fl : Option FrameRec) (it : Bool)
    (hblank : rstrip line ≠ []) (htab : ¬(it && startsWS line) = true)
    (hcl : dbcClassify line = .ok none) :
    parseGo strict (line :: rest) fl it =
      if strict then .error (.unrecognised line)
      else parseGo strict rest fl false := by
  simp only [parseGo]
  rw [if_neg hblank, if_neg htab, hcl]

/-- Unfolding: a classified record is appended through `recStep`. -/
theorem parseGo_cons_some (strict : Bool) (line : List Char)
    (rest : List (List Char)) (fl : Option FrameRec) (it : Bool)
    (hblank : rstrip line ≠ []) (htab : ¬(it && startsWS line) = true)
    (obj : Record) (hcl : dbcClassify line = .ok (some obj)) :
    parseGo strict (line :: rest) fl it =
      (parseGo strict rest (recStep obj fl).2.1 (recStep obj fl).2.2).map
        fun out => (recStep obj fl).1 :: out := by
  simp only [parseGo]
  rw [if_neg hblank, if_neg htab, hcl]

/-- Non-strict parses only ever raise coercion failures. -/
theorem parseGo_nonstrict_err :
    ∀ (lines : List (List Char)) (fl : Option FrameRec) (it : Bool)
      (e : ParseErr), parseGo false lines fl it = .error e →
      e = .coercion := by
  intro lines
  induction lines with
  | nil =>
    intro fl it e h
    simp [parseGo] at h
  | cons line rest ih =>
    intro fl it e h
    by_cases hblank : rstrip line = []
    · rw [parseGo_cons_blank false line rest fl it hblank] at h
      exact ih fl it e h
    · by_cases htab : (it && startsWS line) = true
      · rw [parseGo_cons_tab false line rest fl it hblank htab] at h
        exact ih fl true e h
      · rcases hcl : dbcClassify line with e0 | ro
        · rw [parseGo_cons_err false line rest fl it hblank htab e0 hcl] at h
          injection h with h1
          exact h1.symm
        · rcases ro with _ | obj
          · rw [parseGo_cons_none false line rest fl it hblank htab hcl] at h
            rw [if_neg (by simp)] at h
            exact ih fl false e h
          · rw [parseGo_cons_some false line rest fl it hblank htab obj
              hcl] at h
            exact ih _ _ e (except_map_error _ _ _ h)

/-- A strict-mode unrecognised-line error really names a non-blank
line that no registered pattern matches. -/
theorem parseGo_strict_unrec :
    ∀ (lines : List (List Char)) (fl : Option FrameRec) (it : Bool)
      (l : List Char),
      parseGo true lines fl it = .error (.unrecognised l) →
      rstrip l ≠ [] ∧ dbcClassify l = .ok none := by
  intro lines
  induction lines with
  | nil =>
    intro fl it l h
    simp [parseGo] at h
  | cons line rest ih =>
    intro fl it l h
    by_cases hblank : rstrip line = []
    · rw [parseGo_cons_blank true line rest fl it hblank] at h
      exact ih fl it l h
    · by_cases htab : (it && startsWS line) = true
      · rw [parseGo_cons_tab true line rest fl it hblank htab] at h
        exact ih fl true l h
      · rcases hcl : dbcClassify line with e0 | ro
        · rw [parseGo_cons_err true line rest fl it hblank htab e0 hcl] at h
          injection h with h1
          cases h1
        · rcases ro with _ | obj
          · rw [parseGo_cons_none true line rest fl it hblank htab hcl] at h
            rw [if_pos rfl] at h
            injection h with h1
            injection h1 with h2
            rw [← h2]
            exact ⟨hblank, hcl⟩
          · rw [parseGo_cons_some true line rest fl it hblank htab obj
              hcl] at h
            exact ih _ _ l (except_map_error _ _ _ h)

/-- A strict success is reproduced verbatim by the non-strict mode. -/
theorem parseGo_strict_ok :
    ∀ (lines : List (List Char)) (fl : Option FrameRec) (it : Bool)
      (out : List Record), parseGo true lines fl it = .ok out →
      parseGo false lines fl it = .ok out := by
  intro lines
  induction lines with
  | nil =>
    intro fl it out h
    simpa [parseGo] using h
  | cons line rest ih =>
    intro fl it out h
    by_cases hblank : rstrip line = []
    · rw [parseGo_cons_blank true line rest fl it hblank] at h
      rw [parseGo_cons_blank false line rest fl it hblank]
      exact ih fl it out h
    · by_cases htab : (it && startsWS line) = true
      · rw [parseGo_cons_tab true line rest fl it hblank htab] at h
        rw [parseGo_cons_tab false line rest fl it hblank htab]
        exact ih fl true out h
      · rcases hcl : dbcClassify line with e0 | ro
        · rw [parseGo_cons_err true line rest fl it hblank htab e0 hcl] at h
          cases h
        · rcases ro with _ | obj
          · rw [parseGo_cons_none true line rest fl it hblank htab hcl] at h
            rw [if_pos rfl] at h
            cases h
          · rw [parseGo_cons_some true line rest fl it hblank htab obj
              hcl] at h
            rw [parseGo_cons_some false line rest fl it hblank htab obj hcl]
            obtain ⟨out', hrec, hout⟩ := except_map_ok _ _ _ h
            subst hout
            rw [ih _ _ out' hrec]
            rfl

/-- A non-strict success either replays under strict mode, or strict
mode stops with an unrecognised-line error at a genuinely unmatched
non-blank line. -/
theorem parseGo_nonstrict_ok :
    ∀ (lines : List (List Char)) (fl : Option FrameRec) (it : Bool)
      (out : List Record), parseGo false lines fl it = .ok out →
      parseGo true lines fl it = .ok out ∨
      ∃ l, parseGo true lines fl it = .error (.unrecognised l) ∧
        dbcClassify l = .ok none ∧ rstrip l ≠ [] := by
  intro lines
  induction lines with
  | nil =>
    intro fl it out h
    left
    simpa [parseGo] using h
  | cons line rest ih =>
    intro fl it out h
    by_cases hblank : rstrip line = []
    · rw [parseGo_cons_blank false line rest fl it hblank] at h
      rw [parseGo_cons_blank true line rest fl it hblank]
      exact ih fl it out h
    · by_cases htab : (it && startsWS line) = true
      · rw [parseGo_cons_tab false line rest fl it hblank htab] at h
        rw [parseGo_cons_tab true line rest fl it hblank htab]
        exact ih fl true out h
      · rcases hcl : dbcClassify line with e0 | ro
        · rw [parseGo_cons_err false line rest fl it hblank htab e0 hcl] at h
          cases h
        · rcases ro with _ | obj
          · rw [parseGo_cons_none false line rest fl it hblank htab hcl] at h
            rw [if_neg (by simp)] at h
            rw [parseGo_cons_none true line rest fl it hblank htab hcl,
              if_pos rfl]
            exact Or.inr ⟨line, rfl, hcl, hblank⟩
          · rw [parseGo_cons_some false line rest fl it hblank htab obj
              hcl] at h
            rw [parseGo_cons_some true line rest fl it hblank htab obj hcl]
            obtain ⟨out', hrec, hout⟩ := except_map_ok _ _ _ h
            subst hout
            rcases ih _ _ out' hrec with hok | ⟨l, herr, hcl2, hbl2⟩
            · left
              rw [hok]
              rfl
            · right
              refine ⟨l, ?_, hcl2, hbl2⟩
              rw [herr]
              rfl

-- ------------------------------------------------------------------
-- Claim C8
-- ------------------------------------------------------------------

/--
C8: `parse(strict=True)` raises its unrecognised-line error exactly for
non-blank lines (not suppressed by the tabbed-continuation state) that
match no registered pattern - soundly (clause 2) and completely
(clauses 3 and 4: a strict success replays non-strictly with the same
output, and a non-strict success either replays strictly or strict
mode stops at an unmatched non-blank line); `parse(strict=False)` never
raises for such lines (clause 1: its only errors are coercion
failures); and in both modes a field-coercion failure inside a
pattern-matched line - here a `BA_DEF_` line whose type tag `FLOOT` is
outside the known set - aborts the parse (clause 5).
-/
theorem C8_strict_vs_nonstrict :
    (∀ (lines : List (List Char)) (e : ParseErr),
      dbcParseLines false lines = .error e → e = .coercion) ∧
    (∀ (lines : List (List Char)) (l : List Char),
      dbcParseLines true lines = .error (.unrecognised l) →
      rstrip l ≠ [] ∧ dbcClassify l = .ok none) ∧
    (∀ (lines : List (List Char)) (out : List Record),
      dbcParseLines true lines = .ok out →
      dbcParseLines false lines = .ok out) ∧
    (∀ (lines : List (List Char)) (out : List Record),
      dbcParseLines false lines = .ok out →
      dbcParseLines true lines = .ok out ∨
      ∃ l, dbcParseLines true lines = .error (.unrecognised l) ∧
        dbcClassify l = .ok none ∧ rstrip l ≠ []) ∧
    (∀ strict : Bool, dbcParseLines strict
      [("BA_DEF_ \"x\" FLOOT 0 1;").toList] = .error .coercion) := by
  refine ⟨?_, ?_, ?_, ?_, ?_⟩
  · exact fun lines e h => parseGo_nonstrict_err lines none false e h
  · exact fun lines l h => parseGo_strict_unrec lines none false l h
  · exact fun lines out h => parseGo_strict_ok lines none false out h
  · exact fun lines out h => parseGo_nonstrict_ok lines none false out h
  · decide

/-- C8 witness: a strict success (one `BO_` line) replayed by the
non-strict mode with the same output. -/
theorem C8_witness :
    dbcParseLines false [("BO_ 1 N: 8 T").toList] =
      .ok [Record.frame ⟨1, ['N'], 8, some ['T']⟩] :=
  C8_strict_vs_nonstrict.2.2.1 [("BO_ 1 N: 8 T").toList]
    [Record.frame ⟨1, ['N'], 8, some ['T']⟩] (by decide)

-- ------------------------------------------------------------------
-- Claim C2
-- ------------------------------------------------------------------

theorem stripLit_append (lit l r : List Char) (h : stripLit lit l = some r) :
    l = lit ++ r := by
  induction lit generalizing l with
  | nil =>
    simp only [stripLit, Option.some.injEq] at h
    simp [h]
  | cons c cs ih =>
    cases l with
    | nil => simp [stripLit] at h
    | cons d ds =>
      simp only [stripLit] at h
      split at h
      · next hcd =>
        subst hcd
        simp [List.cons_append, ih ds h]
      · exact absurd h (by simp)

theorem stripLit_suffix (lit l r : List Char) (h : stripLit lit l = some r) :
    List.IsSuffix r l :=
  ⟨lit, (stripLit_append lit l r h).symm⟩

theorem tokP_suffix (p : Char → Bool) (l t r : List Char)
    (h : tokP p l = some (t, r)) : List.IsSuffix r l := by
  by_cases hl : l.takeWhile p = []
  · simp [tokP, hl] at h
  · simp [tokP, hl] at h
    rw [← h.2]
    exact List.dropWhile_suffix p

theorem wsPlus_suffix (l r : List Char) (h : wsPlus l = some r) :
    List.IsSuffix r l := by
  unfold wsPlus at h
  rw [Option.map_eq_some'] at h
  obtain ⟨⟨t, r2⟩, hp, heq⟩ := h
  simp only at heq
  exact heq ▸ tokP_suffix isWS l t r2 hp

theorem quotedCap_suffix (l m rr : List Char)
    (h : quotedCap l = some (m, rr)) : List.IsSuffix rr l := by
  unfold quotedCap at h
  split at h
  · next r =>
    split at h
    · next r3 hd =>
      simp only [Option.some.injEq, Prod.mk.injEq] at h
      have h1 : List.IsSuffix ('"' :: r3) r := by
        rw [← hd]
        exact List.dropWhile_suffix _
      have h2 : List.IsSuffix r3 ('"' :: r3) := ⟨['"'], rfl⟩
      have h3 : List.IsSuffix r ('"' :: r) := ⟨['"'], rfl⟩
      exact h.2 ▸ ((h2.trans h1).trans h3)
    · exact absurd h (by simp)
  · exact absurd h (by simp)

theorem baQuoted_suffix (l nm r : List Char)
    (h : baQuoted l = some (nm, r)) : List.IsSuffix r l := by
  unfold baQuoted at h
  split at h
  · next r0 h0 =>
    exact (quotedCap_suffix (dropWS r0) nm r h).trans
      ((List.dropWhile_suffix isWS).trans (stripLit_suffix _ l r0 h0))
  · exact absurd h (by simp)

theorem semiSplit_cons_isSome (c : Char) (cs : List Char)
    (h : (semiSplit cs).isSome) : (semiSplit (c :: cs)).isSome := by
  rw [semiSplit]
  split
  · split
    · rfl
    · simpa using h
  · simpa using h

theorem semiSplit_suffix_isSome (x y : List Char) (hs : List.IsSuffix x y)
    (h : (semiSplit x).isSome) : (semiSplit y).isSome := by
  obtain ⟨t, rfl⟩ := hs
  induction t with
  | nil => simpa using h
  | cons c cs ih => exact semiSplit_cons_isSome c (cs ++ x) ih

theorem semiSplit_parts (x pre post : List Char)
    (h : semiSplit x = some (pre, post)) : x = pre ++ ';' :: post := by
  induction x generalizing pre post with
  | nil => simp [semiSplit] at h
  | cons c cs ih =>
    rw [semiSplit] at h
    split at h
    · next hc =>
      split at h
      · simp only [Option.some.injEq, Prod.mk.injEq] at h
        rw [← h.1, ← h.2, hc]
        rfl
      · rw [Option.map_eq_some'] at h
        obtain ⟨⟨p1, p2⟩, hp, heq⟩ := h
        simp only [Prod.mk.injEq] at heq
        obtain ⟨h1, h2⟩ := heq
        subst h1
        subst h2
        simp [ih p1 p2 hp]
    · rw [Option.map_eq_some'] at h
      obtain ⟨⟨p1, p2⟩, hp, heq⟩ := h
      simp only [Prod.mk.injEq] at heq
      obtain ⟨h1, h2⟩ := heq
      subst h1
      subst h2
      simp [ih p1 p2 hp]

theorem rstrip_sublist (l : List Char) : List.Sublist (rstrip l) l := by
  have h1 : List.Sublist (l.reverse.dropWhile isWS) l.reverse :=
    List.dropWhile_sublist _
  simpa [rstrip] using h1.reverse

theorem valueSemi_semiSplit (x v : List Char) (h : valueSemi x = some v) :
    (semiSplit x).isSome := by
  unfold valueSemi at h
  split at h
  · next pre post hsp =>
    rw [hsp]
    rfl
  · exact absurd h (by simp)

theorem valueSemi_isSome (x : List Char) (hnl : ∀ c ∈ x, c ≠ '\n')
    (h : (semiSplit x).isSome) : (valueSemi x).isSome := by
  obtain ⟨⟨pre, post⟩, hp⟩ := Option.isSome_iff_exists.mp h
  have hx := semiSplit_parts x pre post hp
  have hall : (rstrip pre).all (· != '\n') = true := by
    rw [List.all_eq_true]
    intro c hc
    have hcp : c ∈ pre := (rstrip_sublist pre).subset hc
    have hcx : c ∈ x := by
      rw [hx]
      exact List.mem_append_left _ hcp
    simpa using hnl c hcx
  unfold valueSemi
  rw [hp]
  simp [hall]

theorem GlobalAttribute_of_suffix (l nm r r6 : List Char)
    (hnl : ∀ c ∈ l, c ≠ '\n')
    (hba : baQuoted l = some (nm, r))
    (hsuf : List.IsSuffix r6 (dropWS r))
    (hsemi : (semiSplit r6).isSome) :
    (GlobalAttribute_from_line l).isSome := by
  have hrl : List.IsSuffix (dropWS r) l :=
    (List.dropWhile_suffix isWS).trans (baQuoted_suffix l nm r hba)
  have hnl2 : ∀ c ∈ dropWS r, c ≠ '\n' := fun c hc => hnl c (hrl.subset hc)
  have hv := valueSemi_isSome (dropWS r) hnl2
    (semiSplit_suffix_isSome r6 (dropWS r) hsuf hsemi)
  obtain ⟨v, hvv⟩ := Option.isSome_iff_exists.mp hv
  unfold GlobalAttribute_from_line
  rw [hba]
  simp [hvv]

theorem SignalAttribute_shadowed (l : List Char) (rec : Record)
    (hnl : ∀ c ∈ l, c ≠ '\n')
    (h : SignalAttribute_from_line l = some rec) :
    (GlobalAttribute_from_line l).isSome := by
  unfold SignalAttribute_from_line at h
  repeat' split at h
  any_goals cases h
  rename_i x7 nm r hba x6 r1 h1 x5 r2 h2 x4 addr r3 h3 x3 r4 h4 x2 sn r5 h5
    x1 r6 h6 x0 v h7
  have s1 : List.IsSuffix r1 (dropWS r) := stripLit_suffix _ _ r1 h1
  have s2 := wsPlus_suffix r1 r2 h2
  have s3 := tokP_suffix isDigit r2 addr r3 h3
  have s4 := wsPlus_suffix r3 r4 h4
  have s5 := tokP_suffix isWord r4 sn r5 h5
  have s6 := wsPlus_suffix r5 r6 h6
  exact GlobalAttribute_of_suffix l nm r r6 hnl hba
    (s6.trans (s5.trans (s4.trans (s3.trans (s2.trans s1)))))
    (valueSemi_semiSplit r6 v h7)

theorem FrameAttribute_shadowed (l : List Char) (rec : Record)
    (hnl : ∀ c ∈ l, c ≠ '\n')
    (h : FrameAttribute_from_line l = some rec) :
    (GlobalAttribute_from_line l).isSome := by
  unfold FrameAttribute_from_line at h
  repeat' split at h
  any_goals cases h
  rename_i x5 nm r hba x4 r1 h1 x3 r2 h2 x2 addr r3 h3 x1 r4 h4 x0 v h5
  have s1 : List.IsSuffix r1 (dropWS r) := stripLit_suffix _ _ r1 h1
  have s2 := wsPlus_suffix r1 r2 h2
  have s3 := tokP_suffix isDigit r2 addr r3 h3
  have s4 := wsPlus_suffix r3 r4 h4
  exact GlobalAttribute_of_suffix l nm r r4 hnl hba
    (s4.trans (s3.trans (s2.trans s1)))
    (valueSemi_semiSplit r4 v h5)

theorem NodeAttribute_shadowed (l : List Char) (rec : Record)
    (hnl : ∀ c ∈ l, c ≠ '\n')
    (h : NodeAttribute_from_line l = some rec) :
    (GlobalAttribute_from_line l).isSome := by
  unfold NodeAttribute_from_line at h
  repeat' split at h
  any_goals cases h
  rename_i x5 nm r hba x4 r1 h1 x3 r2 h2 x2 nn r3 h3 x1 r4 h4 x0 v h5
  have s1 : List.IsSuffix r1 (dropWS r) := stripLit_suffix _ _ r1 h1
  have s2 := wsPlus_suffix r1 r2 h2
  have s3 := tokP_suffix isWord r2 nn r3 h3
  have s4 := wsPlus_suffix r3 r4 h4
  exact GlobalAttribute_of_suffix l nm r r4 hnl hba
    (s4.trans (s3.trans (s2.trans s1)))
    (valueSemi_semiSplit r4 v h5)

theorem Version_not_attr (l : List Char) (r : Record)
    (h : Version_from_line l = some r) : isShadowedAttr r = false := by
  unfold Version_from_line at h
  repeat' first
    | split at h
    | dsimp only at h
  all_goals cases h
  all_goals rfl

theorem Frame_not_attr (l : List Char) (r : Record)
    (h : Frame_from_line l = some r) : isShadowedAttr r = false := by
  unfold Frame_from_line at h
  repeat' first
    | split at h
    | dsimp only at h
  all_goals cases h
  all_goals rfl

theorem Signal_not_attr (l : List Char) (r : Record)
    (h : Signal_from_line l = some (Except.ok r)) :
    isShadowedAttr r = false := by
  unfold Signal_from_line at h
  repeat' first
    | split at h
    | dsimp only at h
  all_goals cases h
  all_goals rfl

theorem SignalComment_core_not_attr (l : List Char) (r : Record)
    (h : SignalComment_core l = some r) : isShadowedAttr r = false := by
  unfold SignalComment_core at h
  repeat' first
    | split at h
    | dsimp only at h
  all_goals cases h
  all_goals rfl

theorem SignalComment_not_attr (l : List Char) (r : Record)
    (h : SignalComment_from_line l = some r) : isShadowedAttr r = false := by
  unfold SignalComment_from_line at h
  obtain ⟨a, _, ha⟩ := List.exists_of_findSome?_eq_some h
  exact SignalComment_core_not_attr a r ha

theorem FrameComment_core_not_attr (l : List Char) (r : Record)
    (h : FrameComment_core l = some r) : isShadowedAttr r = false := by
  unfold FrameComment_core at h
  repeat' first
    | split at h
    | dsimp only at h
  all_goals cases h
  all_goals rfl

theorem FrameComment_not_attr (l : List Char) (r : Record)
    (h : FrameComment_from_line l = some r) : isShadowedAttr r = false := by
  unfold FrameComment_from_line at h
  obtain ⟨a, _, ha⟩ := List.exists_of_findSome?_eq_some h
  exact FrameComment_core_not_attr a r ha

theorem NodeComment_core_not_attr (l : List Char) (r : Record)
    (h : NodeComment_core l = some r) : isShadowedAttr r = false := by
  unfold NodeComment_core at h
  repeat' first
    | split at h
    | dsimp only at h
  all_goals cases h
  all_goals rfl

theorem NodeComment_not_attr (l : List Char) (r : Record)
    (h : NodeComment_from_line l = some r) : isShadowedAttr r = false := by
  unfold NodeComment_from_line at h
  obtain ⟨a, _, ha⟩ := List.exists_of_findSome?_eq_some h
  exact NodeComment_core_not_attr a r ha

theorem NodeList_not_attr (l : List Char) (r : Record)
    (h : NodeList_from_line l = some r) : isShadowedAttr r = false := by
  unfold NodeList_from_line at h
  repeat' first
    | split at h
    | dsimp only at h
  all_goals cases h
  all_goals rfl

theorem Enumeration_not_attr (l : List Char) (r : Record)
    (h : Enumeration_from_line l = some r) : isShadowedAttr r = false := by
  unfold Enumeration_from_line at h
  repeat' first
    | split at h
    | dsimp only at h
  all_goals cases h
  all_goals rfl

theorem ValueTable_not_attr (l : List Char) (r : Record)
    (h : ValueTable_from_line l = some r) : isShadowedAttr r = false := by
  unfold ValueTable_from_line at h
  repeat' first
    | split at h
    | dsimp only at h
  all_goals cases h
  all_goals rfl

theorem buildDefine_not_attr (scope : DefScope) (nm ty : List Char)
    (ps : Option (List Char)) (r : Record)
    (h : buildDefine scope nm ty ps = .ok r) : isShadowedAttr r = false := by
  unfold buildDefine at h
  repeat' first
    | split at h
    | dsimp only at h
  all_goals cases h
  all_goals rfl

theorem defineCore_not_attr (scope : DefScope) (x : List Char) (r : Record)
    (h : defineCore scope x = some (.ok r)) : isShadowedAttr r = false := by
  unfold defineCore at h
  repeat' split at h
  any_goals cases h
  all_goals
    rw [Option.some.injEq] at h
  all_goals
    exact buildDefine_not_attr _ _ _ _ r h

theorem GlobalDefine_not_attr (l : List Char) (r : Record)
    (h : GlobalDefine_from_line l = some (.ok r)) :
    isShadowedAttr r = false := by
  unfold GlobalDefine_from_line at h
  repeat' split at h
  any_goals cases h
  exact defineCore_not_attr .global _ r h

theorem SignalDefine_not_attr (l : List Char) (r : Record)
    (h : SignalDefine_from_line l = some (.ok r)) :
    isShadowedAttr r = false := by
  unfold SignalDefine_from_line at h
  repeat' split at h
  any_goals cases h
  exact defineCore_not_attr .sg _ r h

theorem FrameDefine_not_attr (l : List Char) (r : Record)
    (h : FrameDefine_from_line l = some (.ok r)) :
    isShadowedAttr r = false := by
  unfold FrameDefine_from_line at h
  repeat' split at h
  any_goals cases h
  exact defineCore_not_attr .bo _ r h

theorem NodeDefine_not_attr (l : List Char) (r : Record)
    (h : NodeDefine_from_line l = some (.ok r)) :
    isShadowedAttr r = false := by
  unfold NodeDefine_from_line at h
  repeat' split at h
  any_goals cases h
  exact defineCore_not_attr .bu _ r h

theorem GlobalAttribute_not_attr (l : List Char) (r : Record)
    (h : GlobalAttribute_from_line l = some r) : isShadowedAttr r = false := by
  unfold GlobalAttribute_from_line at h
  repeat' first
    | split at h
    | dsimp only at h
  all_goals cases h
  all_goals rfl

/--
C2 (counterexample): the registered attribute patterns are NOT mutually
exclusive, and registration order decides the winner.  The line
`BA_ "GenSigStartValue" SG_ 123 Dummy 0.0;` is matched by
`SignalAttribute.from_line` (producing a SignalAttribute record with
address 123, signal `Dummy`, value 0.0) and ALSO by
`GlobalAttribute.from_line` (whose lazy `(?P<value>.*?)\s*;\s*$` happily
captures `SG_ 123 Dummy 0.0` and coerces it through `_t_flexible_val`
to the float 0.0 found by the unanchored float search); since
`GlobalAttribute` is registered before `SignalAttribute` in
`DBC_LINE_CLASSES`, `get_obj` returns the GlobalAttribute record.
-/
theorem C2_counterexample :
    (SignalAttribute_from_line
        (("BA_ \"GenSigStartValue\" SG_ 123 Dummy 0.0;").toList)).isSome ∧
    (GlobalAttribute_from_line
        (("BA_ \"GenSigStartValue\" SG_ 123 Dummy 0.0;").toList)).isSome ∧
    dbcClassify (("BA_ \"GenSigStartValue\" SG_ 123 Dummy 0.0;").toList) =
      .ok (some (.globalAttribute (("GenSigStartValue").toList)
        (.float 0))) ∧
    SignalAttribute_from_line
        (("BA_ \"GenSigStartValue\" SG_ 123 Dummy 0.0;").toList) =
      some (.signalAttribute (("GenSigStartValue").toList) 123
        (("Dummy").toList) (.float 0)) := by
  refine ⟨by decide, by decide, by decide, by decide⟩

/--
C2 (amended): on every newline-free line, a match of any of the three
attribute classes registered after `GlobalAttribute` (`SignalAttribute`,
`FrameAttribute`, `NodeAttribute`) implies that `GlobalAttribute`'s own
pattern `^BA_\s*"(?P<name>[^"]*)"\s*(?P<value>.*?)\s*;\s*$` matches the
same line, so the patterns are not mutually exclusive and registration
order decides: first-match classification (`get_obj`) can never return
a SignalAttribute, FrameAttribute or NodeAttribute record for such a
line - those three classes are dead code behind `GlobalAttribute`.
-/
theorem C2_attribute_shadowing (l : List Char) (hnl : ∀ c ∈ l, c ≠ '\n')
    (h : (SignalAttribute_from_line l).isSome ∨
      (FrameAttribute_from_line l).isSome ∨
      (NodeAttribute_from_line l).isSome) :
    (GlobalAttribute_from_line l).isSome ∧
      ∀ r, dbcClassify l = Except.ok (some r) → isShadowedAttr r = false := by
  have hG : (GlobalAttribute_from_line l).isSome := by
    rcases h with h | h | h
    · obtain ⟨rec, hrec⟩ := Option.isSome_iff_exists.mp h
      exact SignalAttribute_shadowed l rec hnl hrec
    · obtain ⟨rec, hrec⟩ := Option.isSome_iff_exists.mp h
      exact FrameAttribute_shadowed l rec hnl hrec
    · obtain ⟨rec, hrec⟩ := Option.isSome_iff_exists.mp h
      exact NodeAttribute_shadowed l rec hnl hrec
  refine ⟨hG, ?_⟩
  intro r hc
  obtain ⟨gr, hg⟩ := Option.isSome_iff_exists.mp hG
  unfold dbcClassify at hc
  repeat' split at hc
  any_goals (solve | simp_all)
  all_goals simp only [Except.ok.injEq, Option.some.injEq] at hc
  all_goals subst hc
  all_goals
    solve_by_elim [Version_not_attr, Frame_not_attr, Signal_not_attr,
      SignalComment_not_attr, FrameComment_not_attr, NodeComment_not_attr,
      NodeList_not_attr, Enumeration_not_attr, ValueTable_not_attr,
      GlobalDefine_not_attr, SignalDefine_not_attr, FrameDefine_not_attr,
      NodeDefine_not_attr, GlobalAttribute_not_attr, rfl]

/-- Witness for C2: the shadowing theorem applied at the concrete
double-matched line. -/
theorem C2_witness :
    (GlobalAttribute_from_line
        (("BA_ \"GenSigStartValue\" SG_ 123 Dummy 0.0;").toList)).isSome ∧
      ∀ r, dbcClassify
          (("BA_ \"GenSigStartValue\" SG_ 123 Dummy 0.0;").toList) =
          Except.ok (some r) → isShadowedAttr r = false :=
  C2_attribute_shadowing
    (("BA_ \"GenSigStartValue\" SG_ 123 Dummy 0.0;").toList)
    (by decide) (Or.inl (by decide))

-- ------------------------------------------------------------------
-- Claim C9
-- ------------------------------------------------------------------

/--
C9: the claim is right about the intent but wrong about the code - the
source reads `def __init__(self, stream, stack=[])`, and Python
evaluates that default list once, so every instance constructed
without an explicit `stack` aliases one shared list.  Evaluating the
embedded semantics at the failing input: after pushing a line through
one default-constructed parser, a second default-constructed parser
sees that line on its own stack ([x], not []), and its `line_iter`
yields the line first even over an empty stream.  Only an instance
constructed with an explicit stack keeps an independent (empty) one.
-/
theorem C9_shared_default_stack :
    StreamParser_stack
        (StreamParser_push initialHeap StreamParser_new_default
          (("x").toList))
        StreamParser_new_default = [("x").toList] ∧
    [("x").toList] ≠ ([] : List (List Char)) ∧
    line_iterFull
        (StreamParser_stack
          (StreamParser_push initialHeap StreamParser_new_default
            (("x").toList))
          StreamParser_new_default) 10 [] = some ([("x").toList], false) ∧
    StreamParser_stack
        (StreamParser_push (StreamParser_new_explicit initialHeap []).1
          StreamParser_new_default (("x").toList))
        (StreamParser_new_explicit initialHeap []).2 = [] := by
  refine ⟨by decide, by decide, by decide, by decide⟩

end Dbc
